import Mathlib

/-!
# Verification of the wwwaxe markup-condensing pipeline

A shallow embedding of `src/wwwaxe.ts` (the tree-transformation pipeline:
classification tables, attribute sanitizer, visibility filter, structural
pruner, document-wrapper remover, chrome stripper, whitespace passes and the
markdown rewriter), together with theorems about the claims of the
specification.

The external parser and serializer are not part of the repository; all
definitions and theorems here work on the parsed tree (`XNode`/`XForest`),
which is the boundary at which the repository's own code operates.
-/

set_option maxHeartbeats 1000000

namespace Wwwaxe

/-! ## Strings

The source uses JavaScript string primitives (`trim`, `toLowerCase`,
`includes`, `startsWith`, regex-based whitespace collapapsing).  They are
embedded here as structurally recursive functions on character lists so that
every definition evaluates by kernel reduction. -/

/-- The whitespace characters trimmed by JavaScript's `String.prototype.trim`
(restricted to the code points that can appear in practice). -/
def jsWs (c : Char) : Bool :=
  c == ' ' || c == '\t' || c == '\n' || c == '\r' || c.toNat == 0x0b ||
  c.toNat == 0x0c || c.toNat == 0xa0 || c.toNat == 0xfeff

/-- Trim on character lists: drop `jsWs` characters from both ends. -/
def trimChars (l : List Char) : List Char :=
  ((l.dropWhile jsWs).reverse.dropWhile jsWs).reverse

/-- Embedding of JavaScript `s.trim()`. -/
def strTrim (s : String) : String := ⟨trimChars s.data⟩

/-- ASCII lowercasing, the embedding of `s.toLowerCase()` on the ASCII
tag/attribute names the pipeline manipulates. -/
def lowerS (s : String) : String := ⟨s.data.map Char.toLower⟩

/-- `pat` occurs at the front of `l`. -/
def leadsWith : List Char → List Char → Bool
  | [], _ => true
  | _ :: _, [] => false
  | p :: ps, c :: cs => p == c && leadsWith ps cs

/-- `pat` occurs somewhere inside `l`; embedding of `s.includes(pat)`. -/
def hasSub (pat : List Char) : List Char → Bool
  | [] => leadsWith pat []
  | c :: cs => leadsWith pat (c :: cs) || hasSub pat cs

/-- Embedding of JavaScript `s.includes(pat)`. -/
def strContains (s pat : String) : Bool := hasSub pat.data s.data

/-- Embedding of JavaScript `s.startsWith(pat)`. -/
def strStarts (s pat : String) : Bool := leadsWith pat.data s.data

/-- Collapse every maximal run of characters satisfying `p` to one space.
`inRun` records whether the previously seen character was part of a run.
Used for both regex replaces in `collapseWhitespace`
(`/[\t\n\r]+/g → " "` and `/ {2,}/g → " "`, the latter because a lone space
mapping to a lone space agrees with replacing only runs of length two or
more). -/
def collapseRuns (p : Char → Bool) : Bool → List Char → List Char
  | _, [] => []
  | inRun, c :: cs =>
    if p c then
      if inRun then collapseRuns p true cs
      else ' ' :: collapseRuns p true cs
    else c :: collapseRuns p false cs

/-- Is the character one of tab, newline, carriage return. -/
def isTNR (c : Char) : Bool := c == '\t' || c == '\n' || c == '\r'

/-- Embedding of
`data.replace(/[\t\n\r]+/g, " ").replace(/ {2,}/g, " ")`
from `collapseWhitespace`. -/
def collapseWs (s : String) : String :=
  ⟨collapseRuns (· == ' ') false (collapseRuns isTNR false s.data)⟩

/-! ## Data model

`Node` of the spec: Document (a forest at top level), Element, Text, Comment.
Parent and sibling back-references of the mutable implementation are
navigation aids re-established after every splice; they carry no information
beyond the tree shape, so the functional embedding omits them and threads the
parent tag where the code consults it (`markdownRewrite`'s `code` case).
A mutual inductive keeps all recursion structural. -/

mutual

inductive XNode where
  | element (tag : String) (attribs : List (String × String)) (children : XForest)
  | text (data : String)
  | comment (data : String)

inductive XForest where
  | nil
  | cons (head : XNode) (tail : XForest)

end

deriving instance DecidableEq for XNode, XForest

namespace XForest

/-- Append two forests (the splice of `unwrapElement`). -/
def append : XForest → XForest → XForest
  | .nil, g => g
  | .cons n f, g => .cons n (append f g)

/-- Number of top-level nodes. -/
def length : XForest → Nat
  | .nil => 0
  | .cons _ f => 1 + f.length

end XForest

/-- JavaScript property access `attribs[name]`: the value of the first
binding of `name` (exact key), if any. -/
def getAttr (attribs : List (String × String)) (name : String) : Option String :=
  (attribs.find? (fun p => p.1 == name)).map (·.2)

/-- `attribs[name] || ""`. -/
def getAttrD (attribs : List (String × String)) (name : String) : String :=
  (getAttr attribs name).getD ""

/-- The attribute set of a node (`el.attribs`; empty for non-elements). -/
def attrsOfN : XNode → List (String × String)
  | .element _ a _ => a
  | _ => []

/-- Top-level tag names of a forest (an observation used to compare
forests). -/
def forestTags : XForest → List String
  | .nil => []
  | .cons (.element t _ _) f => t :: forestTags f
  | .cons _ f => forestTags f

/-! ## Classification tables (`wwwaxe.ts` lines 6–220) -/

/-- `REMOVE_TAGS`. -/
def REMOVE_TAGS : List String :=
  ["script", "style", "noscript", "svg", "link", "iframe", "template"]

/-- `UNWRAP_TAGS`. -/
def UNWRAP_TAGS : List String :=
  ["span", "div", "font", "center", "b", "i", "u", "em", "strong", "small",
   "big", "mark", "sub", "sup", "abbr", "cite", "code", "kbd", "samp", "var",
   "del", "ins", "s", "strike", "wbr", "bdi", "bdo"]

/-- `MARKDOWN_PRESERVE_TAGS`. -/
def MARKDOWN_PRESERVE_TAGS : List String :=
  ["strong", "b", "em", "i", "code", "del", "s", "strike"]

/-- `KEEP_TAGS`. -/
def KEEP_TAGS : List String :=
  ["html", "head", "body",
   "title", "meta", "base",
   "header", "footer", "main", "nav", "article", "section", "aside",
   "hgroup", "search", "address",
   "h1", "h2", "h3", "h4", "h5", "h6",
   "p", "blockquote", "pre", "figure", "figcaption", "hr", "br",
   "ul", "ol", "li", "dl", "dt", "dd", "menu",
   "table", "thead", "tbody", "tfoot", "tr", "th", "td", "caption",
   "colgroup", "col",
   "form", "fieldset", "legend", "label", "input", "textarea", "select",
   "option", "optgroup", "button", "output", "datalist",
   "img", "picture", "source", "video", "audio", "track",
   "a",
   "details", "summary", "dialog", "time"]

/-- `CONTENT_ATTRIBUTES`. -/
def CONTENT_ATTRIBUTES : List String :=
  ["href", "src", "srcset", "alt", "poster",
   "role", "aria-label", "aria-labelledby", "aria-describedby",
   "title", "lang", "dir", "translate",
   "type", "name", "value", "placeholder", "for", "action", "method",
   "required", "disabled", "checked", "selected", "readonly",
   "min", "max", "step", "pattern", "maxlength", "minlength",
   "multiple", "rows", "cols",
   "colspan", "rowspan", "scope", "headers",
   "content", "property", "charset", "http-equiv",
   "width", "height", "controls", "autoplay", "loop", "muted",
   "datetime",
   "open",
   "start", "reversed"]

/-- `CHROME_TAGS`. -/
def CHROME_TAGS : List String := ["header", "nav", "footer", "aside", "dialog"]

/-- `CHROME_ROLES` . -/
def CHROME_ROLES : List String :=
  ["banner", "navigation", "complementary", "contentinfo", "search"]

/-- `WELL_KNOWN_CONTENT_IDS` (an ordered list, not a set). -/
def WELL_KNOWN_CONTENT_IDS : List String :=
  ["main-content", "content", "main", "page-content", "site-content"]

/-- `isEventAttribute`: `name.startsWith("on") && name.length > 2`. -/
def isEventAttribute (name : String) : Bool :=
  strStarts name "on" && decide (2 < name.length)

/-- `isDataAttribute`: `name.startsWith("data-")`. -/
def isDataAttribute (name : String) : Bool := strStarts name "data-"

/-- The `WwwaxeOptions` record, with the documented defaults.  The code
normalizes truthiness once (`options.markdown !== false`,
`options.keepIds !== false`, plain truthiness for the rest), which the
boolean fields capture. -/
structure Options where
  keepDataAttributes : Bool := false
  keepIds : Bool := true
  keepClasses : Bool := false
  keepAriaHidden : Bool := false
  markdown : Bool := true
  core : Bool := false

/-- `getUnwrapTags`: the effective unwrap set — the full table when markdown
is off, otherwise the table minus `MARKDOWN_PRESERVE_TAGS`. -/
def getUnwrapTags (o : Options) : List String :=
  if o.markdown = false then UNWRAP_TAGS
  else UNWRAP_TAGS.filter (fun t => !MARKDOWN_PRESERVE_TAGS.contains t)

/-! ## Tree helpers (`findElement`, `findElements`, `findById`, `textContent`) -/

mutual

/-- `findElement` restricted to one node: the node itself if its lowercased
tag is `t`, else the first match inside its children (pre-order). -/
def findElemN (t : String) : XNode → Option XNode
  | .element tag a cs =>
    if lowerS tag == t then some (.element tag a cs) else findElemF t cs
  | .text _ => none
  | .comment _ => none

/-- `findElement` over a document's child list (the `Document` case). -/
def findElemF (t : String) : XForest → Option XNode
  | .nil => none
  | .cons n f =>
    match findElemN t n with
    | some r => some r
    | none => findElemF t f

end

mutual

/-- `findElements` on one node: all elements (pre-order) satisfying the
predicate. -/
def findElemsN (p : XNode → Bool) : XNode → List XNode
  | .element tag a cs =>
    (if p (.element tag a cs) then [XNode.element tag a cs] else []) ++
      findElemsF p cs
  | .text _ => []
  | .comment _ => []

/-- `findElements` over a child list. -/
def findElemsF (p : XNode → Bool) : XForest → List XNode
  | .nil => []
  | .cons n f => findElemsN p n ++ findElemsF p f

end

mutual

/-- `findById` on one node: `node.attribs.id === id`, else recurse. -/
def findByIdN (i : String) : XNode → Option XNode
  | .element tag a cs =>
    if getAttr a "id" == some i then some (.element tag a cs) else findByIdF i cs
  | .text _ => none
  | .comment _ => none

/-- `findById` over a child list. -/
def findByIdF (i : String) : XForest → Option XNode
  | .nil => none
  | .cons n f =>
    match findByIdN i n with
    | some r => some r
    | none => findByIdF i f

end

mutual

/-- `textContent` (the domutils collaborator): concatenated text data of the
subtree; comments contribute nothing. -/
def textContentN : XNode → String
  | .text d => d
  | .element _ _ cs => textContentF cs
  | .comment _ => ""

/-- `textContent` of a child list. -/
def textContentF : XForest → String
  | .nil => ""
  | .cons n f => textContentN n ++ textContentF f

end

mutual

/-- All element nodes of a node's subtree, each with its full subtree, in
pre-order.  Used to state "every element in the output ..." properties. -/
def elemsN : XNode → List XNode
  | .element tag a cs => XNode.element tag a cs :: elemsF cs
  | .text _ => []
  | .comment _ => []

def elemsF : XForest → List XNode
  | .nil => []
  | .cons n f => elemsN n ++ elemsF f

end

mutual

/-- There is no comment node anywhere in the subtree. -/
def noCommentN : XNode → Bool
  | .element _ _ cs => noCommentF cs
  | .text _ => true
  | .comment _ => false

def noCommentF : XForest → Bool
  | .nil => true
  | .cons n f => noCommentN n && noCommentF f

end

mutual

/-- Every `link` element of the subtree has no children — true of every tree
the HTML parser collaborator produces, `link` being a void tag. -/
def linkChildlessN : XNode → Bool
  | .element tag _ cs =>
    (if lowerS tag == "link" then cs.length == 0 else true) && linkChildlessF cs
  | .text _ => true
  | .comment _ => true

def linkChildlessF : XForest → Bool
  | .nil => true
  | .cons n f => linkChildlessN n && linkChildlessF f

end

mutual

/-- No element of the subtree carries lowercased tag `t`. -/
def tagFreeN (t : String) : XNode → Bool
  | .element tag _ cs => !(lowerS tag == t) && tagFreeF t cs
  | .text _ => true
  | .comment _ => true

def tagFreeF (t : String) : XForest → Bool
  | .nil => true
  | .cons n f => tagFreeN t n && tagFreeF t f

end

/-! ## Attribute sanitizer (`stripAttributes`), visibility filter and
meta/link usefulness (`wwwaxe.ts` lines 400–477) -/

/-- The per-attribute decision of `stripAttributes`: is an attribute with
this (raw) name kept?  Matches the source's cascade on the lowercased
name. -/
def keepAttrKey (o : Options) (key : String) : Bool :=
  let lk := lowerS key
  if isEventAttribute lk then false
  else if lk == "style" then false
  else if lk == "class" then o.keepClasses
  else if lk == "id" then o.keepIds
  else if isDataAttribute lk then o.keepDataAttributes
  else CONTENT_ATTRIBUTES.contains lk

/-- `stripAttributes`: rebuild the attribute set keeping exactly the
attributes `keepAttrKey` allows (original key, original value). -/
def stripAttrs (o : Options) (a : List (String × String)) : List (String × String) :=
  a.filter (fun p => keepAttrKey o p.1)

/-- `isHidden`. -/
def isHidden (o : Options) (a : List (String × String)) : Bool :=
  (getAttr a "hidden").isSome ||
  (!o.keepAriaHidden && getAttr a "aria-hidden" == some "true") ||
  (let style := getAttrD a "style"
   strContains style "display:none" || strContains style "display: none" ||
   strContains style "visibility:hidden" || strContains style "visibility: hidden")

/-- `isUsefulMeta`. -/
def isUsefulMeta (a : List (String × String)) : Bool :=
  let name := lowerS (getAttrD a "name")
  let property := lowerS (getAttrD a "property")
  let httpEquiv := lowerS (getAttrD a "http-equiv")
  ["description", "author", "keywords", "robots", "viewport"].contains name ||
  strStarts property "og:" ||
  strStarts name "twitter:" ||
  !(getAttrD a "charset" == "") ||
  httpEquiv == "content-type"

/-- `isUsefulLink`: `rel` is `canonical` or `alternate`. -/
def isUsefulLink (a : List (String × String)) : Bool :=
  let rel := lowerS (getAttrD a "rel")
  rel == "canonical" || rel == "alternate"

/-- `hasContentAttributes`: does the element still carry a content-worthy
attribute (allow-listed, or `id`/`class`/`data-*` with the matching
keep-flag). -/
def hasContentAttributes (o : Options) (a : List (String × String)) : Bool :=
  a.any fun p =>
    let lk := lowerS p.1
    CONTENT_ATTRIBUTES.contains lk ||
    (lk == "id" && o.keepIds) ||
    (lk == "class" && o.keepClasses) ||
    (isDataAttribute lk && o.keepDataAttributes)

/-- The tags with intrinsically meaningful void content (`hasMeaningfulContent`). -/
def MEANINGFUL_VOID : List String :=
  ["img", "input", "br", "hr", "video", "audio", "source", "track"]

mutual

/-- `hasMeaningfulContent`: a text node is meaningful iff its trimmed data is
non-empty; an element iff its tag is intrinsically meaningful or some
descendant is meaningful. -/
def hasMeaningfulContent : XNode → Bool
  | .text d => decide (0 < (strTrim d).length)
  | .element tag _ cs =>
    if MEANINGFUL_VOID.contains (lowerS tag) then true
    else anyMeaningful cs
  | .comment _ => false

/-- `children.some(hasMeaningfulContent)`. -/
def anyMeaningful : XForest → Bool
  | .nil => false
  | .cons n f => hasMeaningfulContent n || anyMeaningful f

end

/-- The `voidElements` set local to `processNode`. -/
def VOID_ELEMENTS : List String :=
  ["br", "hr", "img", "input", "meta", "source", "track", "col", "base"]

/-- The `headElements` set local to `processNode`. -/
def HEAD_ELEMENTS : List String := ["head", "html", "body", "title"]

/-! ## Structural pruner (`processNode`, `wwwaxe.ts` lines 478–523)

`processNode` mutates the node in place: it can remove the node, unwrap it
(splice its already-processed children into the parent's child list at its
position), or keep it.  Functionally each node maps to the forest of nodes it
leaves behind, and a parent's snapshot loop is the concatenation of its
children's results. -/

mutual

def processNode (o : Options) (ut : List String) : XNode → XForest
  | .comment _ => .nil
  | .text d => .cons (.text d) .nil
  | .element rawTag attrs cs =>
    let tag := lowerS rawTag
    if REMOVE_TAGS.contains tag then
      if tag == "link" && isUsefulLink attrs then
        .cons (.element rawTag (stripAttrs o attrs) cs) .nil
      else .nil
    else if isHidden o attrs then .nil
    else if tag == "meta" && !isUsefulMeta attrs then .nil
    else
      let cs' := processForest o ut cs
      let attrs' := stripAttrs o attrs
      if !KEEP_TAGS.contains tag && (ut.contains tag && !hasContentAttributes o attrs') then
        cs'
      else if !KEEP_TAGS.contains tag &&
          !hasMeaningfulContent (.element rawTag attrs' cs') then
        .nil
      else if !VOID_ELEMENTS.contains tag && !HEAD_ELEMENTS.contains tag &&
          !hasMeaningfulContent (.element rawTag attrs' cs') then
        .nil
      else
        .cons (.element rawTag attrs' cs') .nil

def processForest (o : Options) (ut : List String) : XForest → XForest
  | .nil => .nil
  | .cons n f => XForest.append (processNode o ut n) (processForest o ut f)

end

/-! ## Document wrapper remover (`removeDocumentWrappers`) -/

/-- Does the node's lowercased tag equal `t`? -/
def isElemTag (t : String) : XNode → Bool
  | .element tag _ _ => lowerS tag == t
  | _ => false

mutual

/-- Remove the first element (pre-order) with lowercased tag `t` from the
forest; `none` when there is no such element (`removeElement` on the result
of a `findElement`). -/
def dropFirstF (t : String) : XForest → Option XForest
  | .nil => none
  | .cons n f =>
    if isElemTag t n then some f
    else
      match dropFirstN t n with
      | some n' => some (.cons n' f)
      | none => (dropFirstF t f).map (.cons n ·)

/-- Remove the first `t`-element strictly inside the node. -/
def dropFirstN (t : String) : XNode → Option XNode
  | .element tag a cs => (dropFirstF t cs).map (.element tag a ·)
  | .text _ => none
  | .comment _ => none

end

mutual

/-- Unwrap the first element (pre-order) with lowercased tag `t`: splice its
children into its position (`unwrapElement` on the result of a
`findElement`); `none` when there is no such element. -/
def unwrapFirstF (t : String) : XForest → Option XForest
  | .nil => none
  | .cons n f =>
    if isElemTag t n then
      match n with
      | .element _ _ cs => some (XForest.append cs f)
      | _ => some f
    else
      match unwrapFirstN t n with
      | some n' => some (.cons n' f)
      | none => (unwrapFirstF t f).map (.cons n ·)

/-- Unwrap the first `t`-element strictly inside the node. -/
def unwrapFirstN (t : String) : XNode → Option XNode
  | .element tag a cs => (unwrapFirstF t cs).map (.element tag a ·)
  | .text _ => none
  | .comment _ => none

end

mutual

/-- Replace the first element (pre-order) with lowercased tag `t` by `g`
applied to it. -/
def onFirstF (t : String) (g : XNode → XNode) : XForest → Option XForest
  | .nil => none
  | .cons n f =>
    if isElemTag t n then some (.cons (g n) f)
    else
      match onFirstN t g n with
      | some n' => some (.cons n' f)
      | none => (onFirstF t g f).map (.cons n ·)

/-- Replace the first `t`-element strictly inside the node. -/
def onFirstN (t : String) (g : XNode → XNode) : XNode → Option XNode
  | .element tag a cs => (onFirstF t g cs).map (.element tag a ·)
  | .text _ => none
  | .comment _ => none

end

/-- The mutation `removeDocumentWrappers` performs inside the located `html`
element: remove the first `head` of its subtree, then unwrap the first
`body`. -/
def stripHtmlInner : XNode → XNode
  | .element tag a cs =>
    let cs1 := (dropFirstF "head" cs).getD cs
    let cs2 := (unwrapFirstF "body" cs1).getD cs1
    .element tag a cs2
  | n => n

/-- `removeDocumentWrappers`: if an `html` element exists, remove its first
`head` subtree, unwrap its first `body`, then unwrap the `html` element
itself; otherwise leave the tree alone. -/
def removeDocumentWrappers (f : XForest) : XForest :=
  match onFirstF "html" stripHtmlInner f with
  | none => f
  | some f' => (unwrapFirstF "html" f').getD f'

/-! ## Chrome stripper (`removeChromeElements`, `findCoreContent`,
`stripChrome`) -/

/-- Is the element chrome: lowercased tag in `CHROME_TAGS`, or lowercased
`role` attribute in `CHROME_ROLES`. -/
def isChromeEl : XNode → Bool
  | .element tag a _ =>
    CHROME_TAGS.contains (lowerS tag) ||
    CHROME_ROLES.contains (lowerS (getAttrD a "role"))
  | _ => false

mutual

/-- `removeChromeElements` under one node: chrome children are removed with
their subtrees, other children are recursed into. -/
def removeChromeN : XNode → XNode
  | .element tag a cs => .element tag a (removeChromeF cs)
  | n => n

/-- `removeChromeElements` over a child list. -/
def removeChromeF : XForest → XForest
  | .nil => .nil
  | .cons n f =>
    if isChromeEl n then removeChromeF f
    else .cons (removeChromeN n) (removeChromeF f)

end

/-- Is the node a fragment skip-link: an `a` whose `href` starts with `#`
and whose lowercased text contains `"skip"`. -/
def isSkipLink : XNode → Bool
  | .element tag a cs =>
    lowerS tag == "a" &&
    strStarts (getAttrD a "href") "#" &&
    strContains (lowerS (textContentN (.element tag a cs))) "skip"
  | _ => false

/-- `findCoreContent`: first `article`; else the target of the first
skip-link whose fragment id is non-empty and resolves; else the first
element found by the `WELL_KNOWN_CONTENT_IDS` priority list. -/
def findCoreContent (f : XForest) : Option XNode :=
  match findElemF "article" f with
  | some article => some article
  | none =>
    let skipLinks := findElemsF isSkipLink f
    let viaSkip := skipLinks.findSome? fun l =>
      let targetId := (getAttrD (attrsOfN l) "href").drop 1
      if targetId == "" then none else findByIdF targetId f
    match viaSkip with
    | some target => some target
    | none => WELL_KNOWN_CONTENT_IDS.findSome? fun i => findByIdF i f

/-- Does the element's lowercased `role` attribute equal `"main"`? -/
def isRoleMain : XNode → Bool
  | .element _ a _ => lowerS (getAttrD a "role") == "main"
  | _ => false

/-- `stripChrome`: remove chrome; stop if a `main` element or `role=main`
element remains; otherwise replace the document's children with the single
`findCoreContent` match, if any. -/
def stripChrome (f : XForest) : XForest :=
  let f' := removeChromeF f
  let mainEl :=
    match findElemF "main" f' with
    | some m => some m
    | none => (findElemsF isRoleMain f').head?
  match mainEl with
  | some _ => f'
  | none =>
    match findCoreContent f' with
    | some coreContent => .cons coreContent .nil
    | none => f'

/-! ## Whitespace normalizer and text node cleaner -/

mutual

/-- `collapseWhitespace` on one node. -/
def collapseN : XNode → XNode
  | .text d => .text (collapseWs d)
  | .element tag a cs => .element tag a (collapseF cs)
  | .comment d => .comment d

/-- `collapseWhitespace` over a child list. -/
def collapseF : XForest → XForest
  | .nil => .nil
  | .cons n f => .cons (collapseN n) (collapseF f)

end

/-- The replacement `cleanTextNodes` applies to a text child: whitespace-only
data longer than one character becomes a single space. -/
def cleanData (d : String) : String :=
  if (strTrim d).length == 0 && decide (1 < d.length) then " " else d

mutual

/-- `cleanTextNodes` on one (non-text) node: its text children are cleaned,
its other children recursed into. -/
def cleanN : XNode → XNode
  | .element tag a cs => .element tag a (cleanF cs)
  | n => n

/-- `cleanTextNodes` over a child list. -/
def cleanF : XForest → XForest
  | .nil => .nil
  | .cons (.text d) f => .cons (.text (cleanData d)) (cleanF f)
  | .cons n f => .cons (cleanN n) (cleanF f)

end

/-! ## Markdown rewriter (`markdownRewrite`, `getMdTextContent`) -/

mutual

/-- `getMdTextContent`. -/
def getMdTextN : XNode → String
  | .text d => d
  | .element _ _ cs => getMdTextF cs
  | .comment _ => ""

/-- `getMdTextContent` over a child list. -/
def getMdTextF : XForest → String
  | .nil => ""
  | .cons n f => getMdTextN n ++ getMdTextF f

end

/-- Convert a forest to a list of its top-level nodes. -/
def forestToList : XForest → List XNode
  | .nil => []
  | .cons n f => n :: forestToList f

/-- The text the `pre` rule uses: the inner `code` child's text when the sole
child is a `code` element, else the element's own text. -/
def preText (rawTag : String) (a : List (String × String)) (cs' : XForest) : String :=
  match cs' with
  | .cons (.element ct ca cc) .nil =>
    if lowerS ct == "code" then getMdTextN (.element ct ca cc)
    else getMdTextN (.element rawTag a cs')
  | _ => getMdTextN (.element rawTag a cs')

/-- The heading level of `h1`..`h6` (`parseInt(tag[1])`). -/
def headingLevel (tag : String) : Nat :=
  if tag == "h1" then 1 else if tag == "h2" then 2 else if tag == "h3" then 3
  else if tag == "h4" then 4 else if tag == "h5" then 5 else 6

/-- The `switch` of `markdownRewrite`, applied to an element whose children
have already been rewritten (`ptag` is the raw tag of the parent element, if
the parent is an element). -/
def mdSwitch (ptag : Option String) (rawTag : String)
    (a : List (String × String)) (cs' : XForest) : XNode :=
  let tag := lowerS rawTag
  if tag == "strong" || tag == "b" then
    .text ("**" ++ getMdTextF cs' ++ "**")
  else if tag == "em" || tag == "i" then
    .text ("*" ++ getMdTextF cs' ++ "*")
  else if tag == "del" || tag == "s" || tag == "strike" then
    .text ("~~" ++ getMdTextF cs' ++ "~~")
  else if tag == "a" then
    .text ("[" ++ getMdTextF cs' ++ "](" ++ getAttrD a "href" ++ ")")
  else if tag == "img" then
    .text ("![" ++ getAttrD a "alt" ++ "](" ++ getAttrD a "src" ++ ")")
  else if tag == "code" then
    match ptag with
    | some p =>
      if lowerS p == "pre" then .element rawTag a cs'
      else .text ("`" ++ getMdTextF cs' ++ "`")
    | none => .text ("`" ++ getMdTextF cs' ++ "`")
  else if tag == "pre" then
    .text ("\n```\n" ++ preText rawTag a cs' ++ "\n```\n")
  else if tag == "h1" || tag == "h2" || tag == "h3" || tag == "h4" ||
      tag == "h5" || tag == "h6" then
    .text ("\n" ++ String.mk (List.replicate (headingLevel tag) '#') ++ " " ++
      getMdTextF cs' ++ "\n")
  else if tag == "blockquote" then
    let t := strTrim (getMdTextN (.element rawTag a cs'))
    let lines := t.splitOn "\n"
    .text (String.intercalate "\n" (lines.map (fun line => "> " ++ line)))
  else if tag == "ul" then
    let items := (forestToList cs').filter (isElemTag "li")
    let lines := items.map (fun item => "- " ++ strTrim (getMdTextN item))
    .text (String.intercalate "\n" lines ++ "\n")
  else if tag == "ol" then
    let items := (forestToList cs').filter (isElemTag "li")
    let lines := items.enum.map
      (fun p => toString (p.1 + 1) ++ ". " ++ strTrim (getMdTextN p.2))
    .text (String.intercalate "\n" lines ++ "\n")
  else if tag == "hr" then .text "\n---\n"
  else if tag == "br" then .text "\n"
  else .element rawTag a cs'

mutual

/-- `markdownRewrite` on one node whose parent element has raw tag `ptag`
(`none` when the parent is the document): children first, then the tag
switch. -/
def mdN (ptag : Option String) : XNode → XNode
  | .text d => .text d
  | .comment d => .comment d
  | .element rawTag a cs => mdSwitch ptag rawTag a (mdF rawTag cs)

/-- `markdownRewrite` over the children of an element with raw tag
`parentRaw`. -/
def mdF (parentRaw : String) : XForest → XForest
  | .nil => .nil
  | .cons n f => .cons (mdN (some parentRaw) n) (mdF parentRaw f)

end

/-- `markdownRewrite(doc)`: rewrite the document's children (their parent is
the document, not an element). -/
def mdTop : XForest → XForest
  | .nil => .nil
  | .cons n f => .cons (mdN none n) (mdTop f)

/-! ## Frontmatter extractor -/

/-- The frontmatter record.  A field holds the raw value `extractFrontmatter`
stored (possibly `""`, which the serializer's truthiness test then drops). -/
structure Frontmatter where
  title : Option String := none
  description : Option String := none
  url : Option String := none
  image : Option String := none

/-- `extractFrontmatter`: reads the first `head` before any mutation. -/
def extractFrontmatter (f : XForest) : Frontmatter :=
  match findElemF "head" f with
  | none => {}
  | some head =>
    let title :=
      match findElemN "title" head with
      | some titleEl =>
        let t := strTrim (textContentN titleEl)
        if t == "" then none else some t
      | none => none
    let metas := findElemsN (isElemTag "meta") head
    let links := findElemsN (isElemTag "link") head
    let description := metas.findSome? fun m =>
      let a := attrsOfN m
      if lowerS (getAttrD a "name") == "description" && !(getAttrD a "content" == "") then
        some (strTrim (getAttrD a "content"))
      else none
    let urlFromLink := links.findSome? fun l =>
      let a := attrsOfN l
      if lowerS (getAttrD a "rel") == "canonical" && !(getAttrD a "href" == "") then
        some (strTrim (getAttrD a "href"))
      else none
    let url :=
      match urlFromLink with
      | some u => some u
      | none => metas.findSome? fun m =>
        let a := attrsOfN m
        if lowerS (getAttrD a "property") == "og:url" && !(getAttrD a "content" == "") then
          some (strTrim (getAttrD a "content"))
        else none
    let image := metas.findSome? fun m =>
      let a := attrsOfN m
      if lowerS (getAttrD a "property") == "og:image" && !(getAttrD a "content" == "") then
        some (strTrim (getAttrD a "content"))
      else none
    { title := title, description := description, url := url, image := image }

/-- The description line `buildFrontmatter` emits, as an option: the stored
description survives the serializer's `if (data.description)` truthiness test
iff it is non-empty. -/
def descriptionField (d : Frontmatter) : Option String :=
  match d.description with
  | some s => if s == "" then none else some s
  | none => none

/-! ## Orchestrator (`wwwaxe`), at the tree boundary

The parser and serializer are external collaborators; `wwwaxeTree` is the
whole tree-to-tree pipeline between them (frontmatter extraction is a pure
read and is exposed separately as `extractFrontmatter`). -/

def wwwaxeTree (o : Options) (f : XForest) : XForest :=
  let ut := getUnwrapTags o
  let f1 := processForest o ut f
  let f2 := removeDocumentWrappers f1
  let f3 := if o.core then stripChrome f2 else f2
  let f4 := collapseF f3
  let f5 := cleanF f4
  if o.markdown then mdTop f5 else f5

/-! ## Element-wise properties and the pruner's fixpoint invariant -/

mutual

/-- `q` holds of the (tag, attribute set) of every element of the subtree,
and every comment of the subtree satisfies `cq` (so `cq := false` states the
absence of comments). -/
def allNodesN (q : String → List (String × String) → Bool) (cq : Bool) : XNode → Bool
  | .element tag a cs => q tag a && allNodesF q cq cs
  | .text _ => true
  | .comment _ => cq

/-- `allNodesN` over a forest. -/
def allNodesF (q : String → List (String × String) → Bool) (cq : Bool) : XForest → Bool
  | .nil => true
  | .cons n f => allNodesN q cq n && allNodesF q cq f

end

mutual

/-- The state the structural pruner leaves a node in, and therefore the state
in which a second pruner run changes nothing: no removable tag, not hidden,
metas useful, attributes already sanitized, no unwrappable attribute-less
element, and meaningful content wherever `processNode`'s removal checks
demand it.  `link` elements (kept only through the useful-link early return,
which sanitizes but does not recurse) are described separately. -/
def prunedN (o : Options) (ut : List String) : XNode → Bool
  | .text _ => true
  | .comment _ => false
  | .element rawTag attrs cs =>
    let tag := lowerS rawTag
    if tag == "link" then stripAttrs o attrs == attrs && cs.length == 0
    else
      !(REMOVE_TAGS.contains tag) &&
      !(isHidden o attrs) &&
      !(tag == "meta" && !isUsefulMeta attrs) &&
      stripAttrs o attrs == attrs &&
      (KEEP_TAGS.contains tag || !(ut.contains tag && !hasContentAttributes o attrs)) &&
      (KEEP_TAGS.contains tag || hasMeaningfulContent (.element rawTag attrs cs)) &&
      (VOID_ELEMENTS.contains tag || HEAD_ELEMENTS.contains tag ||
        hasMeaningfulContent (.element rawTag attrs cs)) &&
      prunedF o ut cs

/-- The pruner-fixpoint invariant over a forest. -/
def prunedF (o : Options) (ut : List String) : XForest → Bool
  | .nil => true
  | .cons n f => prunedN o ut n && prunedF o ut f

end

/-! ## Claim-side definitions

The two definitions below are written from the specification's words (not
from the source) for the refinement comparison of the chrome-stripper
fallback. -/

/-- Modelled from the spec: the fallback as the claim states it — (1) first
`article`; (2) the target, resolved by fragment id, of **the first**
skip-link only; (3) the `WELL_KNOWN_CONTENT_IDS` priority list. -/
def findCoreContentAsClaimed (f : XForest) : Option XNode :=
  match findElemF "article" f with
  | some article => some article
  | none =>
    let viaSkip :=
      match (findElemsF isSkipLink f).head? with
      | some l =>
        let targetId :=
          (getAttrD (attrsOfN l) "href").drop 1
        if targetId == "" then none else findByIdF targetId f
      | none => none
    match viaSkip with
    | some target => some target
    | none => WELL_KNOWN_CONTENT_IDS.findSome? fun i => findByIdF i f

/-- Modelled from the spec: the whole chrome-stripper contract as the claim
states it, with the fallback of `findCoreContentAsClaimed`. -/
def stripChromeAsClaimed (f : XForest) : XForest :=
  let f' := removeChromeF f
  let mainEl :=
    match findElemF "main" f' with
    | some m => some m
    | none => (findElemsF isRoleMain f').head?
  match mainEl with
  | some _ => f'
  | none =>
    match findCoreContentAsClaimed f' with
    | some coreContent => .cons coreContent .nil
    | none => f'

/-- Modelled from the amended claim: as `findCoreContentAsClaimed`, except
that step (2) tries every skip-link in document order and takes the first
whose fragment id is non-empty and resolves to an element. -/
def findCoreContentAmendedSpec (f : XForest) : Option XNode :=
  match findElemF "article" f with
  | some article => some article
  | none =>
    let viaSkip := (findElemsF isSkipLink f).findSome? fun l =>
      let targetId :=
        (getAttrD (attrsOfN l) "href").drop 1
      if targetId == "" then none else findByIdF targetId f
    match viaSkip with
    | some target => some target
    | none => WELL_KNOWN_CONTENT_IDS.findSome? fun i => findByIdF i f

/-- Modelled from the amended claim: the chrome-stripper contract with the
amended fallback. -/
def stripChromeAmendedSpec (f : XForest) : XForest :=
  let f' := removeChromeF f
  let mainEl :=
    match findElemF "main" f' with
    | some m => some m
    | none => (findElemsF isRoleMain f').head?
  match mainEl with
  | some _ => f'
  | none =>
    match findCoreContentAmendedSpec f' with
    | some coreContent => .cons coreContent .nil
    | none => f'

/-- Modelled from the claim (C7): the description field as the claim reads —
the trimmed `content` of the first `meta[name=description]` whose content is
non-empty and not whitespace-only; metas with empty or whitespace-only
content never determine the field. -/
def descriptionAsClaimed (f : XForest) : Option String :=
  match findElemF "head" f with
  | none => none
  | some head =>
    (findElemsN (isElemTag "meta") head).findSome? fun m =>
      let a := attrsOfN m
      if lowerS (getAttrD a "name") == "description" &&
          !(strTrim (getAttrD a "content") == "") then
        some (strTrim (getAttrD a "content"))
      else none

/-- The description field as the amended claim reads: the **first**
`meta[name=description]` whose raw `content` is non-empty decides the
outcome — the field is its trimmed content when that is non-empty and absent
otherwise (later metas are never consulted). -/
def descriptionAmendedSpec (f : XForest) : Option String :=
  match findElemF "head" f with
  | none => none
  | some head =>
    let hit := (findElemsN (isElemTag "meta") head).find? fun m =>
      let a := attrsOfN m
      lowerS (getAttrD a "name") == "description" && !(getAttrD a "content" == "")
    match hit with
    | none => none
    | some m =>
      let a := attrsOfN m
      let t := strTrim (getAttrD a "content")
      if t == "" then none else some t

/-! ## Concrete inputs used by counterexamples and witnesses -/

/-- A document whose first skip-link has an unresolvable fragment id while
the second skip-link resolves. -/
def exSkip : XForest :=
  .cons (.element "a" [("href", "#nowhere")] (.cons (.text "skip to content") .nil))
  (.cons (.element "a" [("href", "#target")] (.cons (.text "also skip") .nil))
  (.cons (.element "section" [("id", "target")] (.cons (.text "Body") .nil))
  (.cons (.element "p" [] (.cons (.text "other") .nil)) .nil)))

/-- A bare canonical `link`, the input on which the pipeline is not
idempotent. -/
def exLink : XForest :=
  .cons (.element "link" [("rel", "canonical"), ("href", "https://e/")] .nil) .nil

/-- A head with a whitespace-only description meta before a real one. -/
def exMeta : XForest :=
  .cons (.element "head" []
    (.cons (.element "meta" [("name", "description"), ("content", "   ")] .nil)
      (.cons (.element "meta" [("name", "description"), ("content", "Real")] .nil)
        .nil)))
    .nil

/-- A hidden canonical `link`: it satisfies `isHidden` yet survives the
pruner through the useful-link early return. -/
def exHiddenLink : XNode :=
  .element "link" [("rel", "canonical"), ("href", "u"), ("hidden", "")] .nil

/-- Two complete `html` documents side by side: wrapper removal unwraps only
the first, so the first output still contains an `html` element and the
second run unwraps that one. -/
def exTwoHtml : XForest :=
  .cons (.element "html" []
    (.cons (.element "body" []
      (.cons (.element "p" [] (.cons (.text "a") .nil)) .nil)) .nil))
  (.cons (.element "html" []
    (.cons (.element "body" []
      (.cons (.element "p" [] (.cons (.text "b") .nil)) .nil)) .nil))
  .nil)

/-- An `html` document wrapped in a `div` whose only meaningful content sits
in the document's `head`: wrapper removal deletes the `head`, leaving an
empty `div` that the second run's pruner removes. -/
def exWrapped : XForest :=
  .cons (.element "div" [("id", "x")]
    (.cons (.element "html" []
      (.cons (.element "head" []
        (.cons (.element "p" [] (.cons (.text "x") .nil)) .nil)) .nil))
    .nil))
  .nil

/-- A skip-link pointing at a section that itself holds a deeper skip-link:
with core on, the first run isolates the outer target and the second run
isolates the inner one. -/
def exCore : XForest :=
  .cons (.element "a" [("href", "#outer")] (.cons (.text "skip navigation") .nil))
  (.cons (.element "section" [("id", "outer")]
    (.cons (.element "a" [("href", "#inner")] (.cons (.text "skip more") .nil))
    (.cons (.element "section" [("id", "inner")]
      (.cons (.element "p" [] (.cons (.text "hi") .nil)) .nil))
    .nil)))
  .nil)

/-- An ordinary single-`html` document. -/
def exDoc : XForest :=
  .cons (.element "html" []
    (.cons (.element "body" []
      (.cons (.element "p" [] (.cons (.text "hi") .nil)) .nil)) .nil))
  .nil

/-! ## Mutual structural induction -/

mutual

/-- Structural induction over `XNode`, with a companion motive for forests. -/
def XNode.indN {P : XNode → Prop} {Q : XForest → Prop}
    (hel : ∀ t a cs, Q cs → P (.element t a cs))
    (htx : ∀ d, P (.text d)) (hcm : ∀ d, P (.comment d))
    (hnil : Q .nil) (hcons : ∀ n f, P n → Q f → Q (.cons n f)) :
    ∀ n, P n
  | .element t a cs => hel t a cs (XForest.indF hel htx hcm hnil hcons cs)
  | .text d => htx d
  | .comment d => hcm d

/-- Structural induction over `XForest`, with a companion motive for nodes. -/
def XForest.indF {P : XNode → Prop} {Q : XForest → Prop}
    (hel : ∀ t a cs, Q cs → P (.element t a cs))
    (htx : ∀ d, P (.text d)) (hcm : ∀ d, P (.comment d))
    (hnil : Q .nil) (hcons : ∀ n f, P n → Q f → Q (.cons n f)) :
    ∀ f, Q f
  | .nil => hnil
  | .cons n f =>
    hcons n f (XNode.indN hel htx hcm hnil hcons n)
      (XForest.indF hel htx hcm hnil hcons f)

end

/-- Both halves of the mutual induction at once. -/
def XNode.indBoth {P : XNode → Prop} {Q : XForest → Prop}
    (hel : ∀ t a cs, Q cs → P (.element t a cs))
    (htx : ∀ d, P (.text d)) (hcm : ∀ d, P (.comment d))
    (hnil : Q .nil) (hcons : ∀ n f, P n → Q f → Q (.cons n f)) :
    (∀ n, P n) ∧ (∀ f, Q f) :=
  ⟨XNode.indN hel htx hcm hnil hcons, XForest.indF hel htx hcm hnil hcons⟩

/-! # Theorems -/

/-! ## Generic list lemma -/

/-- A guarded `findSome?` is a `find?` followed by a `map`. -/
theorem findSome_guard {α β : Type} (p : α → Bool) (g : α → β) :
    ∀ l : List α,
      (l.findSome? fun x => if p x then some (g x) else none) = (l.find? p).map g
  | [] => rfl
  | a :: t => by
    by_cases h : p a
    · simp [List.findSome?_cons, List.find?_cons, h]
    · simp [List.findSome?_cons, List.find?_cons, h, findSome_guard p g t]

/-! ## Attribute sanitizer lemmas -/

/-- Sanitizing is idempotent: the filter keeps exactly what it keeps. -/
theorem stripAttrs_idem (o : Options) (a : List (String × String)) :
    stripAttrs o (stripAttrs o a) = stripAttrs o a := by
  simp [stripAttrs, List.filter_filter]

/-- Membership in the sanitized attribute set. -/
theorem mem_stripAttrs {o : Options} {a : List (String × String)}
    {p : String × String} :
    p ∈ stripAttrs o a ↔ p ∈ a ∧ keepAttrKey o p.1 = true := by
  simp [stripAttrs, List.mem_filter]

/-- In a sanitized attribute set every key passes `keepAttrKey`. -/
theorem keep_of_strip_eq_self {o : Options} {a : List (String × String)}
    (h : stripAttrs o a = a) : ∀ p ∈ a, keepAttrKey o p.1 = true := by
  intro p hp
  exact (List.filter_eq_self.mp h) p hp

/-- A key `keepAttrKey` rejects is absent from the sanitized set. -/
theorem getAttr_strip_none (o : Options) (k : String)
    (hk : keepAttrKey o k = false) :
    ∀ a, getAttr (stripAttrs o a) k = none := by
  intro a
  induction a with
  | nil => rfl
  | cons p t ih =>
    by_cases hkeep : keepAttrKey o p.1 = true
    · have hpk : (p.1 == k) = false := by
        cases hpk : p.1 == k
        · rfl
        · exfalso
          have hpk' : p.1 = k := by simpa using hpk
          rw [hpk', hk] at hkeep
          exact Bool.noConfusion hkeep
      simp only [stripAttrs, List.filter_cons, hkeep, if_true, getAttr,
        List.find?_cons, hpk]
      simpa [stripAttrs, getAttr] using ih
    · have hkeep' : keepAttrKey o p.1 = false := Bool.eq_false_iff.mpr hkeep
      simp only [stripAttrs, List.filter_cons, hkeep']
      simpa [stripAttrs, getAttr] using ih

/-- A key `keepAttrKey` accepts is looked up unchanged in the sanitized
set. -/
theorem getAttr_strip_keep (o : Options) (k : String)
    (hk : keepAttrKey o k = true) :
    ∀ a, getAttr (stripAttrs o a) k = getAttr a k := by
  intro a
  induction a with
  | nil => rfl
  | cons p t ih =>
    by_cases hpk : (p.1 == k) = true
    · have hpk' : p.1 = k := by simpa using hpk
      have hkeep : keepAttrKey o p.1 = true := by rw [hpk']; exact hk
      simp [stripAttrs, List.filter_cons, hkeep, getAttr, List.find?_cons, hpk]
    · have hpk' : (p.1 == k) = false := Bool.eq_false_iff.mpr hpk
      by_cases hkeep : keepAttrKey o p.1 = true
      · simp only [stripAttrs, List.filter_cons, hkeep, if_true, getAttr,
          List.find?_cons, hpk']
        simpa [stripAttrs, getAttr] using ih
      · have hkeep' : keepAttrKey o p.1 = false := Bool.eq_false_iff.mpr hkeep
        simp only [stripAttrs, List.filter_cons, hkeep', getAttr,
          List.find?_cons, hpk']
        simpa [stripAttrs, getAttr] using ih

/-- A sanitized element is never hidden: `hidden`, `aria-hidden` and `style`
are all rejected by the sanitizer. -/
theorem isHidden_strip (o : Options) (a : List (String × String)) :
    isHidden o (stripAttrs o a) = false := by
  unfold isHidden getAttrD
  rw [getAttr_strip_none o "hidden" rfl, getAttr_strip_none o "aria-hidden" rfl,
    getAttr_strip_none o "style" rfl]
  simp
  exact ⟨⟨⟨rfl, rfl⟩, rfl⟩, rfl⟩

/-- Meta usefulness only reads attributes the sanitizer keeps, so it is
unchanged by sanitizing. -/
theorem isUsefulMeta_strip (o : Options) (a : List (String × String)) :
    isUsefulMeta (stripAttrs o a) = isUsefulMeta a := by
  unfold isUsefulMeta getAttrD
  rw [getAttr_strip_keep o "name" rfl, getAttr_strip_keep o "property" rfl,
    getAttr_strip_keep o "charset" rfl, getAttr_strip_keep o "http-equiv" rfl]

/-! ## Forest predicate plumbing -/

/-- `allNodesF` over an append. -/
theorem allNodesF_append (q : String → List (String × String) → Bool) (cq : Bool) :
    ∀ f g, allNodesF q cq (XForest.append f g) =
      (allNodesF q cq f && allNodesF q cq g)
  | .nil, g => by simp [XForest.append, allNodesF]
  | .cons n f, g => by
    simp [XForest.append, allNodesF, allNodesF_append q cq f g, Bool.and_assoc]

/-- `prunedF` over an append. -/
theorem prunedF_append (o : Options) (ut : List String) :
    ∀ f g, prunedF o ut (XForest.append f g) =
      (prunedF o ut f && prunedF o ut g)
  | .nil, g => by simp [XForest.append, prunedF]
  | .cons n f, g => by
    simp [XForest.append, prunedF, prunedF_append o ut f g, Bool.and_assoc]

/-- A forest with zero length is empty. -/
theorem eq_nil_of_length_zero : ∀ {f : XForest}, (f.length == 0) = true → f = .nil
  | .nil, _ => rfl
  | .cons _ _, h => by simp [XForest.length] at h

/-! ## The pruner establishes the `pruned` invariant -/

/-- When a tag equals `"link"`, it is in `REMOVE_TAGS`. -/
theorem remove_contains_of_link {t : String} (h : (t == "link") = true) :
    REMOVE_TAGS.contains t = true := by
  have h' : t = "link" := by simpa using h
  rw [h']
  rfl

/-- On a forest whose `link` elements are childless (as the parser
guarantees), every node the structural pruner emits satisfies the `pruned`
invariant. -/
theorem processForest_pruned (o : Options) (ut : List String) :
    ∀ f, linkChildlessF f = true → prunedF o ut (processForest o ut f) = true := by
  refine XForest.indF
    (P := fun n => linkChildlessN n = true →
      prunedF o ut (processNode o ut n) = true)
    (Q := fun f => linkChildlessF f = true →
      prunedF o ut (processForest o ut f) = true)
    ?_ ?_ ?_ ?_ ?_
  · intro rawTag attrs cs ih h
    have h' := h
    simp only [linkChildlessN, Bool.and_eq_true] at h'
    obtain ⟨hlink, hcs⟩ := h'
    simp only [processNode]
    by_cases h1 : REMOVE_TAGS.contains (lowerS rawTag) = true
    · rw [if_pos h1]
      by_cases h2 : (lowerS rawTag == "link" && isUsefulLink attrs) = true
      · rw [if_pos h2]
        have hl : (lowerS rawTag == "link") = true := by
          have h2' := h2
          simp only [Bool.and_eq_true] at h2'
          exact h2'.1
        have hcs0 : (cs.length == 0) = true := by
          rw [if_pos hl] at hlink
          exact hlink
        simp [prunedF, prunedN, hl, stripAttrs_idem, hcs0]
      · rw [if_neg h2]
        simp [prunedF]
    · rw [if_neg h1]
      by_cases h2 : isHidden o attrs = true
      · rw [if_pos h2]
        simp [prunedF]
      · rw [if_neg h2]
        by_cases h3 : (lowerS rawTag == "meta" && !isUsefulMeta attrs) = true
        · rw [if_pos h3]
          simp [prunedF]
        · rw [if_neg h3]
          have ihcs : prunedF o ut (processForest o ut cs) = true := ih hcs
          by_cases h4 : (!KEEP_TAGS.contains (lowerS rawTag) &&
              (ut.contains (lowerS rawTag) &&
                !hasContentAttributes o (stripAttrs o attrs))) = true
          · rw [if_pos h4]
            exact ihcs
          · rw [if_neg h4]
            by_cases h5 : (!KEEP_TAGS.contains (lowerS rawTag) &&
                !hasMeaningfulContent
                  (.element rawTag (stripAttrs o attrs) (processForest o ut cs))) = true
            · rw [if_pos h5]
              simp [prunedF]
            · rw [if_neg h5]
              by_cases h6 : (!VOID_ELEMENTS.contains (lowerS rawTag) &&
                  !HEAD_ELEMENTS.contains (lowerS rawTag) &&
                  !hasMeaningfulContent
                    (.element rawTag (stripAttrs o attrs) (processForest o ut cs))) = true
              · rw [if_pos h6]
                simp [prunedF]
              · rw [if_neg h6]
                have hnl : (lowerS rawTag == "link") = false := by
                  cases hx : lowerS rawTag == "link"
                  · rfl
                  · exact absurd (remove_contains_of_link hx) h1
                have h1' : REMOVE_TAGS.contains (lowerS rawTag) = false :=
                  Bool.eq_false_iff.mpr h1
                have hb3 : (lowerS rawTag == "meta" && !isUsefulMeta attrs) = false :=
                  Bool.eq_false_iff.mpr h3
                have hb4 : (!KEEP_TAGS.contains (lowerS rawTag) &&
                    (ut.contains (lowerS rawTag) &&
                      !hasContentAttributes o (stripAttrs o attrs))) = false :=
                  Bool.eq_false_iff.mpr h4
                have hb5 : (!KEEP_TAGS.contains (lowerS rawTag) &&
                    !hasMeaningfulContent
                      (.element rawTag (stripAttrs o attrs)
                        (processForest o ut cs))) = false :=
                  Bool.eq_false_iff.mpr h5
                have hb6 : (!VOID_ELEMENTS.contains (lowerS rawTag) &&
                    !HEAD_ELEMENTS.contains (lowerS rawTag) &&
                    !hasMeaningfulContent
                      (.element rawTag (stripAttrs o attrs)
                        (processForest o ut cs))) = false :=
                  Bool.eq_false_iff.mpr h6
                simp only [prunedF, prunedN, hnl, Bool.false_eq_true, if_false,
                  Bool.and_eq_true, Bool.not_eq_true', Bool.or_eq_true,
                  Bool.and_true]
                refine ⟨⟨⟨⟨⟨⟨⟨h1', isHidden_strip o attrs⟩, ?_⟩, ?_⟩, ?_⟩, ?_⟩, ?_⟩, ihcs⟩
                · rw [isUsefulMeta_strip]
                  exact hb3
                · simp [stripAttrs_idem]
                · cases hK : KEEP_TAGS.contains (lowerS rawTag) with
                  | true => exact Or.inl rfl
                  | false =>
                    right
                    rw [hK] at hb4
                    simp only [Bool.not_false, Bool.true_and] at hb4
                    exact hb4
                · cases hK : KEEP_TAGS.contains (lowerS rawTag) with
                  | true => exact Or.inl rfl
                  | false =>
                    right
                    rw [hK] at hb5
                    simp only [Bool.not_false, Bool.true_and] at hb5
                    simpa using hb5
                · cases hV : VOID_ELEMENTS.contains (lowerS rawTag) with
                  | true => exact Or.inl (Or.inl rfl)
                  | false =>
                    rw [hV] at hb6
                    simp only [Bool.not_false, Bool.true_and] at hb6
                    cases hH : HEAD_ELEMENTS.contains (lowerS rawTag) with
                    | true => exact Or.inl (Or.inr rfl)
                    | false =>
                      right
                      rw [hH] at hb6
                      simp only [Bool.not_false, Bool.true_and] at hb6
                      simpa using hb6
  · intro d _
    simp [processNode, prunedF, prunedN]
  · intro d _
    simp [processNode, prunedF]
  · intro _
    simp [processForest, prunedF]
  · intro n f ihn ihf h
    simp only [linkChildlessF, Bool.and_eq_true] at h
    simp [processForest, prunedF_append, ihn h.1, ihf h.2]

/-- A false boolean is not true. -/
theorem ne_true_of_false {b : Bool} (h : b = false) : ¬(b = true) := by
  simp [h]

/-- A forest satisfying the `pruned` invariant and containing no `link`
element is a fixpoint of the structural pruner. -/
theorem pruned_fix (o : Options) (ut : List String) :
    ∀ f, prunedF o ut f = true → tagFreeF "link" f = true →
      processForest o ut f = f := by
  refine XForest.indF
    (P := fun n => prunedN o ut n = true → tagFreeN "link" n = true →
      processNode o ut n = .cons n .nil)
    (Q := fun f => prunedF o ut f = true → tagFreeF "link" f = true →
      processForest o ut f = f) ?_ ?_ ?_ ?_ ?_
  · intro rawTag attrs cs ih hp ht
    simp only [tagFreeN, Bool.and_eq_true, Bool.not_eq_true'] at ht
    obtain ⟨hnl, htcs⟩ := ht
    simp only [prunedN, hnl, Bool.false_eq_true, if_false, Bool.and_eq_true,
      Bool.not_eq_true', Bool.or_eq_true] at hp
    obtain ⟨⟨⟨⟨⟨⟨⟨hA, hB⟩, hC⟩, hD⟩, hE⟩, hF⟩, hG⟩, hH⟩ := hp
    have hde : stripAttrs o attrs = attrs := by simpa using hD
    have hcs : processForest o ut cs = cs := ih hH htcs
    simp only [processNode]
    rw [if_neg (ne_true_of_false hA), if_neg (ne_true_of_false hB),
      if_neg (ne_true_of_false hC)]
    rw [hde, hcs]
    have c1 : (!KEEP_TAGS.contains (lowerS rawTag) &&
        (ut.contains (lowerS rawTag) && !hasContentAttributes o attrs)) = false := by
      cases hE with
      | inl h =>
        rw [h]
        simp only [Bool.not_true, Bool.false_and]
      | inr h =>
        rw [h]
        simp only [Bool.and_false]
    have c2 : (!KEEP_TAGS.contains (lowerS rawTag) &&
        !hasMeaningfulContent (.element rawTag attrs cs)) = false := by
      cases hF with
      | inl h =>
        rw [h]
        simp only [Bool.not_true, Bool.false_and]
      | inr h =>
        rw [h]
        simp only [Bool.not_true, Bool.and_false]
    have c3 : (!VOID_ELEMENTS.contains (lowerS rawTag) &&
        !HEAD_ELEMENTS.contains (lowerS rawTag) &&
        !hasMeaningfulContent (.element rawTag attrs cs)) = false := by
      rcases hG with h | h
      · rcases h with h | h
        · rw [h]
          simp only [Bool.not_true, Bool.false_and]
        · rw [h]
          simp only [Bool.not_true, Bool.and_false, Bool.false_and]
      · rw [h]
        simp only [Bool.not_true, Bool.and_false]
    rw [if_neg (ne_true_of_false c1), if_neg (ne_true_of_false c2),
      if_neg (ne_true_of_false c3)]
  · intro d _ _
    rfl
  · intro d hp _
    simp [prunedN] at hp
  · intro _ _
    rfl
  · intro n f ihn ihf hp ht
    simp only [prunedF, Bool.and_eq_true] at hp
    simp only [tagFreeF, Bool.and_eq_true] at ht
    simp [processForest, ihn hp.1 ht.1, ihf hp.2 ht.2, XForest.append]

/-! ## Bridges out of the `pruned` invariant -/

/-- Monotonicity of `allNodesF`. -/
theorem allNodes_mono (q q' : String → List (String × String) → Bool)
    (cq cq' : Bool) (hq : ∀ t a, q t a = true → q' t a = true)
    (hc : cq = true → cq' = true) :
    ∀ f, allNodesF q cq f = true → allNodesF q' cq' f = true := by
  refine XForest.indF
    (P := fun n => allNodesN q cq n = true → allNodesN q' cq' n = true)
    (Q := fun f => allNodesF q cq f = true → allNodesF q' cq' f = true)
    ?_ ?_ ?_ ?_ ?_
  · intro t a cs ih h
    simp only [allNodesN, Bool.and_eq_true] at h ⊢
    exact ⟨hq t a h.1, ih h.2⟩
  · intro d h
    exact h
  · intro d h
    simp only [allNodesN] at h ⊢
    exact hc h
  · intro h
    exact h
  · intro n f ihn ihf h
    simp only [allNodesF, Bool.and_eq_true] at h ⊢
    exact ⟨ihn h.1, ihf h.2⟩

/-- Every node the pruner emits is an element that is either a `link` or a
non-removable tag, carries sanitized attributes, or a text node; comments are
gone.  Bundled as one `allNodesF` fact (`cq := false` states comment
absence). -/
theorem processForest_allNodes (o : Options) (ut : List String) (f : XForest)
    (h : linkChildlessF f = true) :
    allNodesF
      (fun t a => ((lowerS t == "link") || !REMOVE_TAGS.contains (lowerS t)) &&
        (stripAttrs o a == a)) false (processForest o ut f) = true := by
  have hp := processForest_pruned o ut f h
  revert hp
  generalize processForest o ut f = g
  refine XForest.indF
    (P := fun n => prunedN o ut n = true →
      allNodesN (fun t a => ((lowerS t == "link") || !REMOVE_TAGS.contains (lowerS t)) &&
        (stripAttrs o a == a)) false n = true)
    (Q := fun g => prunedF o ut g = true →
      allNodesF (fun t a => ((lowerS t == "link") || !REMOVE_TAGS.contains (lowerS t)) &&
        (stripAttrs o a == a)) false g = true)
    ?_ ?_ ?_ ?_ ?_ g
  · intro t a cs ih hp
    by_cases hl : (lowerS t == "link") = true
    · simp only [prunedN, hl, if_true, Bool.and_eq_true] at hp
      have hnil : cs = .nil := eq_nil_of_length_zero hp.2
      subst hnil
      simp only [allNodesN, Bool.and_eq_true]
      refine ⟨⟨?_, hp.1⟩, ?_⟩
      · simp [hl]
      · rfl
    · have hl' : (lowerS t == "link") = false := Bool.eq_false_iff.mpr hl
      simp only [prunedN, hl', Bool.false_eq_true, if_false, Bool.and_eq_true] at hp
      obtain ⟨⟨⟨⟨⟨⟨⟨hA, _⟩, _⟩, hD⟩, _⟩, _⟩, _⟩, hH⟩ := hp
      simp only [allNodesN, Bool.and_eq_true, hl']
      refine ⟨⟨?_, hD⟩, ih hH⟩
      exact hA
  · intro d _
    rfl
  · intro d hp
    simp [prunedN] at hp
  · intro _
    rfl
  · intro n g ihn ihg hp
    simp only [prunedF, Bool.and_eq_true] at hp
    simp only [allNodesF, Bool.and_eq_true]
    exact ⟨ihn hp.1, ihg hp.2⟩

/-! ## Per-pass preservation of node-local properties -/

/-- Removing the first `t`-element preserves `allNodesF`. -/
theorem allNodes_dropFirst (q : String → List (String × String) → Bool)
    (cq : Bool) (t : String) :
    ∀ f, allNodesF q cq f = true → ∀ f', dropFirstF t f = some f' →
      allNodesF q cq f' = true := by
  refine XForest.indF
    (P := fun n => allNodesN q cq n = true → ∀ n', dropFirstN t n = some n' →
      allNodesN q cq n' = true)
    (Q := fun f => allNodesF q cq f = true → ∀ f', dropFirstF t f = some f' →
      allNodesF q cq f' = true) ?_ ?_ ?_ ?_ ?_
  · intro tg a cs ih h n' hd
    simp only [dropFirstN] at hd
    cases hcs : dropFirstF t cs with
    | none => rw [hcs] at hd; cases hd
    | some cs' =>
      rw [hcs] at hd
      simp only [Option.map_some'] at hd
      injection hd with hinj
      subst hinj
      simp only [allNodesN, Bool.and_eq_true] at h ⊢
      exact ⟨h.1, ih h.2 cs' hcs⟩
  · intro d _ n' hd
    cases hd
  · intro d _ n' hd
    cases hd
  · intro _ f' hd
    cases hd
  · intro n f ihn ihf h f' hd
    simp only [allNodesF, Bool.and_eq_true] at h
    simp only [dropFirstF] at hd
    by_cases he : isElemTag t n = true
    · rw [if_pos he] at hd
      injection hd with hinj
      subst hinj
      exact h.2
    · rw [if_neg he] at hd
      cases hn : dropFirstN t n with
      | some n' =>
        rw [hn] at hd
        injection hd with hinj
        subst hinj
        simp only [allNodesF, Bool.and_eq_true]
        exact ⟨ihn h.1 n' hn, h.2⟩
      | none =>
        rw [hn] at hd
        cases hf : dropFirstF t f with
        | none => rw [hf] at hd; cases hd
        | some f2 =>
          rw [hf] at hd
          simp only [Option.map_some'] at hd
          injection hd with hinj
          subst hinj
          simp only [allNodesF, Bool.and_eq_true]
          exact ⟨h.1, ihf h.2 f2 hf⟩

/-- Unwrapping the first `t`-element preserves `allNodesF`. -/
theorem allNodes_unwrapFirst (q : String → List (String × String) → Bool)
    (cq : Bool) (t : String) :
    ∀ f, allNodesF q cq f = true → ∀ f', unwrapFirstF t f = some f' →
      allNodesF q cq f' = true := by
  refine XForest.indF
    (P := fun n => allNodesN q cq n = true → ∀ n', unwrapFirstN t n = some n' →
      allNodesN q cq n' = true)
    (Q := fun f => allNodesF q cq f = true → ∀ f', unwrapFirstF t f = some f' →
      allNodesF q cq f' = true) ?_ ?_ ?_ ?_ ?_
  · intro tg a cs ih h n' hd
    simp only [unwrapFirstN] at hd
    cases hcs : unwrapFirstF t cs with
    | none => rw [hcs] at hd; cases hd
    | some cs' =>
      rw [hcs] at hd
      simp only [Option.map_some'] at hd
      injection hd with hinj
      subst hinj
      simp only [allNodesN, Bool.and_eq_true] at h ⊢
      exact ⟨h.1, ih h.2 cs' hcs⟩
  · intro d _ n' hd
    cases hd
  · intro d _ n' hd
    cases hd
  · intro _ f' hd
    cases hd
  · intro n f ihn ihf h f' hd
    simp only [allNodesF, Bool.and_eq_true] at h
    simp only [unwrapFirstF] at hd
    by_cases he : isElemTag t n = true
    · rw [if_pos he] at hd
      cases n with
      | element tg a cs =>
        injection hd with hinj
        subst hinj
        rw [allNodesF_append]
        simp only [Bool.and_eq_true]
        have hn := h.1
        simp only [allNodesN, Bool.and_eq_true] at hn
        exact ⟨hn.2, h.2⟩
      | text d =>
        injection hd with hinj
        subst hinj
        exact h.2
      | comment d =>
        injection hd with hinj
        subst hinj
        exact h.2
    · rw [if_neg he] at hd
      cases hn : unwrapFirstN t n with
      | some n' =>
        rw [hn] at hd
        injection hd with hinj
        subst hinj
        simp only [allNodesF, Bool.and_eq_true]
        exact ⟨ihn h.1 n' hn, h.2⟩
      | none =>
        rw [hn] at hd
        cases hf : unwrapFirstF t f with
        | none => rw [hf] at hd; cases hd
        | some f2 =>
          rw [hf] at hd
          simp only [Option.map_some'] at hd
          injection hd with hinj
          subst hinj
          simp only [allNodesF, Bool.and_eq_true]
          exact ⟨h.1, ihf h.2 f2 hf⟩

/-- Applying a property-preserving function to the first `t`-element
preserves `allNodesF`. -/
theorem allNodes_onFirst (q : String → List (String × String) → Bool)
    (cq : Bool) (t : String) (g : XNode → XNode)
    (hg : ∀ n, allNodesN q cq n = true → allNodesN q cq (g n) = true) :
    ∀ f, allNodesF q cq f = true → ∀ f', onFirstF t g f = some f' →
      allNodesF q cq f' = true := by
  refine XForest.indF
    (P := fun n => allNodesN q cq n = true → ∀ n', onFirstN t g n = some n' →
      allNodesN q cq n' = true)
    (Q := fun f => allNodesF q cq f = true → ∀ f', onFirstF t g f = some f' →
      allNodesF q cq f' = true) ?_ ?_ ?_ ?_ ?_
  · intro tg a cs ih h n' hd
    simp only [onFirstN] at hd
    cases hcs : onFirstF t g cs with
    | none => rw [hcs] at hd; cases hd
    | some cs' =>
      rw [hcs] at hd
      simp only [Option.map_some'] at hd
      injection hd with hinj
      subst hinj
      simp only [allNodesN, Bool.and_eq_true] at h ⊢
      exact ⟨h.1, ih h.2 cs' hcs⟩
  · intro d _ n' hd
    cases hd
  · intro d _ n' hd
    cases hd
  · intro _ f' hd
    cases hd
  · intro n f ihn ihf h f' hd
    simp only [allNodesF, Bool.and_eq_true] at h
    simp only [onFirstF] at hd
    by_cases he : isElemTag t n = true
    · rw [if_pos he] at hd
      injection hd with hinj
      subst hinj
      simp only [allNodesF, Bool.and_eq_true]
      exact ⟨hg n h.1, h.2⟩
    · rw [if_neg he] at hd
      cases hn : onFirstN t g n with
      | some n' =>
        rw [hn] at hd
        injection hd with hinj
        subst hinj
        simp only [allNodesF, Bool.and_eq_true]
        exact ⟨ihn h.1 n' hn, h.2⟩
      | none =>
        rw [hn] at hd
        cases hf : onFirstF t g f with
        | none => rw [hf] at hd; cases hd
        | some f2 =>
          rw [hf] at hd
          simp only [Option.map_some'] at hd
          injection hd with hinj
          subst hinj
          simp only [allNodesF, Bool.and_eq_true]
          exact ⟨h.1, ihf h.2 f2 hf⟩

/-- The `html`-interior mutation of the wrapper remover preserves
`allNodesF`. -/
theorem allNodes_stripHtmlInner (q : String → List (String × String) → Bool)
    (cq : Bool) (n : XNode) (h : allNodesN q cq n = true) :
    allNodesN q cq (stripHtmlInner n) = true := by
  cases n with
  | element tg a cs =>
    simp only [stripHtmlInner]
    simp only [allNodesN, Bool.and_eq_true] at h
    have h1 : allNodesF q cq ((dropFirstF "head" cs).getD cs) = true := by
      cases hd : dropFirstF "head" cs with
      | none => simpa [hd] using h.2
      | some cs1 => simpa [hd] using allNodes_dropFirst q cq "head" cs h.2 cs1 hd
    have h2 : allNodesF q cq
        ((unwrapFirstF "body" ((dropFirstF "head" cs).getD cs)).getD
          ((dropFirstF "head" cs).getD cs)) = true := by
      cases hu : unwrapFirstF "body" ((dropFirstF "head" cs).getD cs) with
      | none => simpa [hu] using h1
      | some cs2 => simpa [hu] using allNodes_unwrapFirst q cq "body" _ h1 cs2 hu
    simp only [allNodesN, Bool.and_eq_true]
    exact ⟨h.1, h2⟩
  | text d => exact h
  | comment d => exact h

/-- The document-wrapper remover preserves `allNodesF`. -/
theorem allNodes_removeDocumentWrappers
    (q : String → List (String × String) → Bool) (cq : Bool) (f : XForest)
    (h : allNodesF q cq f = true) :
    allNodesF q cq (removeDocumentWrappers f) = true := by
  unfold removeDocumentWrappers
  cases ho : onFirstF "html" stripHtmlInner f with
  | none => exact h
  | some f' =>
    have h' : allNodesF q cq f' = true :=
      allNodes_onFirst q cq "html" stripHtmlInner
        (allNodes_stripHtmlInner q cq) f h f' ho
    cases hu : unwrapFirstF "html" f' with
    | none => simpa [hu] using h'
    | some f2 => simpa [hu] using allNodes_unwrapFirst q cq "html" f' h' f2 hu

/-- Chrome removal preserves `allNodesF`. -/
theorem allNodes_removeChrome (q : String → List (String × String) → Bool)
    (cq : Bool) :
    ∀ f, allNodesF q cq f = true → allNodesF q cq (removeChromeF f) = true := by
  refine XForest.indF
    (P := fun n => allNodesN q cq n = true → allNodesN q cq (removeChromeN n) = true)
    (Q := fun f => allNodesF q cq f = true → allNodesF q cq (removeChromeF f) = true)
    ?_ ?_ ?_ ?_ ?_
  · intro t a cs ih h
    simp only [removeChromeN, allNodesN, Bool.and_eq_true] at h ⊢
    exact ⟨h.1, ih h.2⟩
  · intro d h
    exact h
  · intro d h
    exact h
  · intro h
    exact h
  · intro n f ihn ihf h
    simp only [allNodesF, Bool.and_eq_true] at h
    simp only [removeChromeF]
    by_cases hc : isChromeEl n = true
    · rw [if_pos hc]
      exact ihf h.2
    · rw [if_neg hc]
      simp only [allNodesF, Bool.and_eq_true]
      exact ⟨ihn h.1, ihf h.2⟩

/-- A node found by `findElem` inherits `allNodesN`. -/
theorem allNodes_findElem (q : String → List (String × String) → Bool)
    (cq : Bool) (t : String) :
    ∀ f, allNodesF q cq f = true → ∀ r, findElemF t f = some r →
      allNodesN q cq r = true := by
  refine XForest.indF
    (P := fun n => allNodesN q cq n = true → ∀ r, findElemN t n = some r →
      allNodesN q cq r = true)
    (Q := fun f => allNodesF q cq f = true → ∀ r, findElemF t f = some r →
      allNodesN q cq r = true) ?_ ?_ ?_ ?_ ?_
  · intro tg a cs ih h r hr
    simp only [findElemN] at hr
    by_cases ht : (lowerS tg == t) = true
    · rw [if_pos ht] at hr
      injection hr with hinj
      subst hinj
      exact h
    · rw [if_neg ht] at hr
      simp only [allNodesN, Bool.and_eq_true] at h
      exact ih h.2 r hr
  · intro d _ r hr
    cases hr
  · intro d _ r hr
    cases hr
  · intro _ r hr
    cases hr
  · intro n f ihn ihf h r hr
    simp only [allNodesF, Bool.and_eq_true] at h
    simp only [findElemF] at hr
    cases hn : findElemN t n with
    | some r' =>
      rw [hn] at hr
      injection hr with hinj
      subst hinj
      exact ihn h.1 r' hn
    | none =>
      rw [hn] at hr
      exact ihf h.2 r hr

/-- A node found by `findById` inherits `allNodesN`. -/
theorem allNodes_findById (q : String → List (String × String) → Bool)
    (cq : Bool) (i : String) :
    ∀ f, allNodesF q cq f = true → ∀ r, findByIdF i f = some r →
      allNodesN q cq r = true := by
  refine XForest.indF
    (P := fun n => allNodesN q cq n = true → ∀ r, findByIdN i n = some r →
      allNodesN q cq r = true)
    (Q := fun f => allNodesF q cq f = true → ∀ r, findByIdF i f = some r →
      allNodesN q cq r = true) ?_ ?_ ?_ ?_ ?_
  · intro tg a cs ih h r hr
    simp only [findByIdN] at hr
    by_cases ht : (getAttr a "id" == some i) = true
    · rw [if_pos ht] at hr
      injection hr with hinj
      subst hinj
      exact h
    · rw [if_neg ht] at hr
      simp only [allNodesN, Bool.and_eq_true] at h
      exact ih h.2 r hr
  · intro d _ r hr
    cases hr
  · intro d _ r hr
    cases hr
  · intro _ r hr
    cases hr
  · intro n f ihn ihf h r hr
    simp only [allNodesF, Bool.and_eq_true] at h
    simp only [findByIdF] at hr
    cases hn : findByIdN i n with
    | some r' =>
      rw [hn] at hr
      injection hr with hinj
      subst hinj
      exact ihn h.1 r' hn
    | none =>
      rw [hn] at hr
      exact ihf h.2 r hr

/-- The core-content fallback returns a node of the searched forest, so it
inherits `allNodesN`. -/
theorem allNodes_findCoreContent (q : String → List (String × String) → Bool)
    (cq : Bool) (f : XForest) (h : allNodesF q cq f = true) (r : XNode)
    (hr : findCoreContent f = some r) : allNodesN q cq r = true := by
  unfold findCoreContent at hr
  cases ha : findElemF "article" f with
  | some article =>
    rw [ha] at hr
    injection hr with hinj
    subst hinj
    exact allNodes_findElem q cq "article" f h article ha
  | none =>
    rw [ha] at hr
    simp only [] at hr
    cases hs : (findElemsF isSkipLink f).findSome? fun l =>
        let targetId :=
          (getAttrD (attrsOfN l) "href").drop 1
        if targetId == "" then none else findByIdF targetId f with
    | some target =>
      rw [hs] at hr
      injection hr with hinj
      subst hinj
      obtain ⟨l, _, hl⟩ := List.exists_of_findSome?_eq_some hs
      have hl' : (if ((getAttrD (attrsOfN l) "href").drop 1 == "") = true
          then none
          else findByIdF
            ((getAttrD (attrsOfN l) "href").drop 1) f) =
            some target := hl
      by_cases hempty : ((getAttrD (attrsOfN l) "href").drop 1 == "") = true
      · rw [if_pos hempty] at hl'
        cases hl'
      · rw [if_neg hempty] at hl'
        exact allNodes_findById q cq _ f h _ hl'
    | none =>
      rw [hs] at hr
      obtain ⟨i, _, hi⟩ := List.exists_of_findSome?_eq_some hr
      exact allNodes_findById q cq i f h r hi

/-- The chrome stripper preserves `allNodesF`. -/
theorem allNodes_stripChrome (q : String → List (String × String) → Bool)
    (cq : Bool) (f : XForest) (h : allNodesF q cq f = true) :
    allNodesF q cq (stripChrome f) = true := by
  unfold stripChrome
  have h' : allNodesF q cq (removeChromeF f) = true :=
    allNodes_removeChrome q cq f h
  cases hm : (match findElemF "main" (removeChromeF f) with
      | some m => some m
      | none => (findElemsF isRoleMain (removeChromeF f)).head?) with
  | some m => simpa [hm] using h'
  | none =>
    simp only [hm]
    cases hc : findCoreContent (removeChromeF f) with
    | some cc =>
      simp only [allNodesF, Bool.and_eq_true]
      exact ⟨allNodes_findCoreContent q cq _ h' cc hc, trivial⟩
    | none => exact h'

/-- The whitespace normalizer preserves `allNodesF`. -/
theorem allNodes_collapse (q : String → List (String × String) → Bool)
    (cq : Bool) :
    ∀ f, allNodesF q cq f = true → allNodesF q cq (collapseF f) = true := by
  refine XForest.indF
    (P := fun n => allNodesN q cq n = true → allNodesN q cq (collapseN n) = true)
    (Q := fun f => allNodesF q cq f = true → allNodesF q cq (collapseF f) = true)
    ?_ ?_ ?_ ?_ ?_
  · intro t a cs ih h
    simp only [collapseN, allNodesN, Bool.and_eq_true] at h ⊢
    exact ⟨h.1, ih h.2⟩
  · intro d h
    exact h
  · intro d h
    exact h
  · intro h
    exact h
  · intro n f ihn ihf h
    simp only [allNodesF, Bool.and_eq_true] at h
    simp only [collapseF, allNodesF, Bool.and_eq_true]
    exact ⟨ihn h.1, ihf h.2⟩

/-- The text-node cleaner preserves `allNodesF`. -/
theorem allNodes_clean (q : String → List (String × String) → Bool)
    (cq : Bool) :
    ∀ f, allNodesF q cq f = true → allNodesF q cq (cleanF f) = true := by
  refine XForest.indF
    (P := fun n => allNodesN q cq n = true → allNodesN q cq (cleanN n) = true)
    (Q := fun f => allNodesF q cq f = true → allNodesF q cq (cleanF f) = true)
    ?_ ?_ ?_ ?_ ?_
  · intro t a cs ih h
    simp only [cleanN, allNodesN, Bool.and_eq_true] at h ⊢
    exact ⟨h.1, ih h.2⟩
  · intro d h
    exact h
  · intro d h
    exact h
  · intro h
    exact h
  · intro n f ihn ihf h
    simp only [allNodesF, Bool.and_eq_true] at h
    cases n with
    | text d =>
      simp only [cleanF, allNodesF, Bool.and_eq_true]
      exact ⟨rfl, ihf h.2⟩
    | element t a cs =>
      simp only [cleanF, allNodesF, Bool.and_eq_true]
      exact ⟨ihn h.1, ihf h.2⟩
    | comment d =>
      simp only [cleanF, allNodesF, Bool.and_eq_true]
      exact ⟨h.1, ihf h.2⟩

/-- The markdown switch preserves node-local properties: every branch yields
a text node or the element itself with rewritten children. -/
theorem allNodes_mdSwitch (q : String → List (String × String) → Bool)
    (cq : Bool) (pt : Option String) (rawTag : String)
    (a : List (String × String)) (cs' : XForest)
    (hqa : q rawTag a = true) (hcs : allNodesF q cq cs' = true) :
    allNodesN q cq (mdSwitch pt rawTag a cs') = true := by
  unfold mdSwitch
  dsimp only
  by_cases hcode : (lowerS rawTag == "code") = true
  case pos =>
    by_cases h0 : (lowerS rawTag == "strong" || lowerS rawTag == "b") = true
    case pos =>
      rw [if_pos h0]
      rfl
    rw [if_neg h0]
    by_cases h1 : (lowerS rawTag == "em" || lowerS rawTag == "i") = true
    case pos =>
      rw [if_pos h1]
      rfl
    rw [if_neg h1]
    by_cases h2 : (lowerS rawTag == "del" || lowerS rawTag == "s" || lowerS rawTag == "strike") = true
    case pos =>
      rw [if_pos h2]
      rfl
    rw [if_neg h2]
    by_cases h3 : (lowerS rawTag == "a") = true
    case pos =>
      rw [if_pos h3]
      rfl
    rw [if_neg h3]
    by_cases h4 : (lowerS rawTag == "img") = true
    case pos =>
      rw [if_pos h4]
      rfl
    rw [if_neg h4]
    rw [if_pos hcode]
    cases pt with
    | none => rfl
    | some p =>
      show allNodesN q cq (if (lowerS p == "pre") = true
        then XNode.element rawTag a cs'
        else XNode.text ("`" ++ getMdTextF cs' ++ "`")) = true
      by_cases hpre : (lowerS p == "pre") = true
      case pos =>
        rw [if_pos hpre]
        exact ((by rw [hqa, hcs]; rfl) : (q rawTag a && allNodesF q cq cs') = true)
      rw [if_neg hpre]
      rfl
  by_cases h0 : (lowerS rawTag == "strong" || lowerS rawTag == "b") = true
  case pos =>
      rw [if_pos h0]
      rfl
  rw [if_neg h0]
  by_cases h1 : (lowerS rawTag == "em" || lowerS rawTag == "i") = true
  case pos =>
      rw [if_pos h1]
      rfl
  rw [if_neg h1]
  by_cases h2 : (lowerS rawTag == "del" || lowerS rawTag == "s" || lowerS rawTag == "strike") = true
  case pos =>
      rw [if_pos h2]
      rfl
  rw [if_neg h2]
  by_cases h3 : (lowerS rawTag == "a") = true
  case pos =>
      rw [if_pos h3]
      rfl
  rw [if_neg h3]
  by_cases h4 : (lowerS rawTag == "img") = true
  case pos =>
      rw [if_pos h4]
      rfl
  rw [if_neg h4]
  rw [if_neg hcode]
  by_cases h10 : (lowerS rawTag == "pre") = true
  case pos =>
      rw [if_pos h10]
      rfl
  rw [if_neg h10]
  by_cases h11 : (lowerS rawTag == "h1" || lowerS rawTag == "h2" || lowerS rawTag == "h3" || lowerS rawTag == "h4" || lowerS rawTag == "h5" || lowerS rawTag == "h6") = true
  case pos =>
      rw [if_pos h11]
      rfl
  rw [if_neg h11]
  by_cases h12 : (lowerS rawTag == "blockquote") = true
  case pos =>
      rw [if_pos h12]
      rfl
  rw [if_neg h12]
  by_cases h13 : (lowerS rawTag == "ul") = true
  case pos =>
      rw [if_pos h13]
      rfl
  rw [if_neg h13]
  by_cases h14 : (lowerS rawTag == "ol") = true
  case pos =>
      rw [if_pos h14]
      rfl
  rw [if_neg h14]
  by_cases h15 : (lowerS rawTag == "hr") = true
  case pos =>
      rw [if_pos h15]
      rfl
  rw [if_neg h15]
  by_cases h16 : (lowerS rawTag == "br") = true
  case pos =>
      rw [if_pos h16]
      rfl
  rw [if_neg h16]
  exact ((by rw [hqa, hcs]; rfl) : (q rawTag a && allNodesF q cq cs') = true)

/-- The markdown rewriter preserves `allNodesF`. -/
theorem allNodes_md (q : String → List (String × String) → Bool) (cq : Bool) :
    (∀ pt n, allNodesN q cq n = true → allNodesN q cq (mdN pt n) = true) ∧
    (∀ pr f, allNodesF q cq f = true → allNodesF q cq (mdF pr f) = true) := by
  have h : (∀ n, ∀ pt, allNodesN q cq n = true → allNodesN q cq (mdN pt n) = true) ∧
      (∀ f, ∀ pr, allNodesF q cq f = true → allNodesF q cq (mdF pr f) = true) := by
    constructor
    · refine XNode.indN
        (P := fun n => ∀ pt, allNodesN q cq n = true → allNodesN q cq (mdN pt n) = true)
        (Q := fun f => ∀ pr, allNodesF q cq f = true → allNodesF q cq (mdF pr f) = true)
        ?_ ?_ ?_ ?_ ?_
      · intro t a cs ih pt h
        simp only [allNodesN, Bool.and_eq_true] at h
        simp only [mdN]
        exact allNodes_mdSwitch q cq pt t a (mdF t cs) h.1 (ih t h.2)
      · intro d _ _
        exact id (by simp [mdN, allNodesN])
      · intro d pt h
        simpa [mdN, allNodesN] using h
      · intro _ _
        exact id rfl
      · intro n f ihn ihf pr h
        simp only [allNodesF, Bool.and_eq_true] at h
        simp only [mdF, allNodesF, Bool.and_eq_true]
        exact ⟨ihn (some pr) h.1, ihf pr h.2⟩
    · refine XForest.indF
        (P := fun n => ∀ pt, allNodesN q cq n = true → allNodesN q cq (mdN pt n) = true)
        (Q := fun f => ∀ pr, allNodesF q cq f = true → allNodesF q cq (mdF pr f) = true)
        ?_ ?_ ?_ ?_ ?_
      · intro t a cs ih pt h
        simp only [allNodesN, Bool.and_eq_true] at h
        simp only [mdN]
        exact allNodes_mdSwitch q cq pt t a (mdF t cs) h.1 (ih t h.2)
      · intro d _ _
        exact id (by simp [mdN, allNodesN])
      · intro d pt h
        simpa [mdN, allNodesN] using h
      · intro _ _
        exact id rfl
      · intro n f ihn ihf pr h
        simp only [allNodesF, Bool.and_eq_true] at h
        simp only [mdF, allNodesF, Bool.and_eq_true]
        exact ⟨ihn (some pr) h.1, ihf pr h.2⟩
  exact ⟨fun pt n hn => h.1 n pt hn, fun pr f hf => h.2 f pr hf⟩

/-- The top-level markdown pass preserves `allNodesF`. -/
theorem allNodes_mdTop (q : String → List (String × String) → Bool) (cq : Bool) :
    ∀ f, allNodesF q cq f = true → allNodesF q cq (mdTop f) = true
  | .nil => fun h => h
  | .cons n g => fun h => by
    simp only [allNodesF, Bool.and_eq_true] at h
    simp only [mdTop, allNodesF, Bool.and_eq_true]
    exact ⟨(allNodes_md q cq).1 none n h.1, allNodes_mdTop q cq g h.2⟩

/-- Node-local properties established right after the pruner survive the
whole remaining pipeline. -/
theorem allNodes_wwwaxe (q : String → List (String × String) → Bool)
    (cq : Bool) (o : Options) (f : XForest)
    (h : allNodesF q cq (processForest o (getUnwrapTags o) f) = true) :
    allNodesF q cq (wwwaxeTree o f) = true := by
  unfold wwwaxeTree
  have h2 := allNodes_removeDocumentWrappers q cq _ h
  have h3 : allNodesF q cq
      (if o.core then stripChrome (removeDocumentWrappers
        (processForest o (getUnwrapTags o) f))
       else removeDocumentWrappers (processForest o (getUnwrapTags o) f)) = true := by
    cases hc : o.core
    · simpa using h2
    · simpa using allNodes_stripChrome q cq _ h2
  have h4 := allNodes_collapse q cq _ h3
  have h5 := allNodes_clean q cq _ h4
  cases hm : o.markdown
  · simpa [hm] using h5
  · simpa [hm] using allNodes_mdTop q cq _ h5

/-! ## Consequences of `keepAttrKey` -/

/-- An attribute name lowercasing to `class` is kept iff `keepClasses`. -/
theorem keepAttr_class (o : Options) (k : String) (h : lowerS k = "class") :
    keepAttrKey o k = o.keepClasses := by
  unfold keepAttrKey
  rw [h]
  rfl

/-- An attribute name lowercasing to `id` is kept iff `keepIds`. -/
theorem keepAttr_id (o : Options) (k : String) (h : lowerS k = "id") :
    keepAttrKey o k = o.keepIds := by
  unfold keepAttrKey
  rw [h]
  rfl

/-- An attribute name lowercasing to `rel` is always dropped: `rel` is not in
the content-attribute allow-list. -/
theorem keepAttr_rel (o : Options) (k : String) (h : lowerS k = "rel") :
    keepAttrKey o k = false := by
  unfold keepAttrKey
  rw [h]
  rfl

/-- A list starting with `data-` does not start with `on`. -/
theorem data_not_on {l : List Char}
    (h : leadsWith ("data-".data) l = true) : leadsWith ("on".data) l = false := by
  have hd : "data-".data = ['d', 'a', 't', 'a', '-'] := rfl
  have ho : "on".data = ['o', 'n'] := rfl
  rw [hd] at h
  rw [ho]
  cases l with
  | nil => cases h
  | cons c rest =>
    have h1 : ('d' == c) = true := by
      by_cases hx : ('d' == c) = true
      · exact hx
      · exfalso
        have h2 : (('d' == c) && leadsWith ['a', 't', 'a', '-'] rest) = true := h
        rw [Bool.eq_false_iff.mpr hx] at h2
        exact Bool.noConfusion (show false = true from h2)
    have hc : c = 'd' := (eq_of_beq h1).symm
    subst hc
    rfl

/-- An attribute name lowercasing to a `data-` name is kept iff
`keepDataAttributes`. -/
theorem keepAttr_data (o : Options) (k : String)
    (h : strStarts (lowerS k) "data-" = true) :
    keepAttrKey o k = o.keepDataAttributes := by
  unfold keepAttrKey
  have hev : isEventAttribute (lowerS k) = false := by
    unfold isEventAttribute strStarts
    rw [data_not_on h]
    rfl
  have hst : ((lowerS k) == "style") = false := by
    cases hx : (lowerS k) == "style"
    · rfl
    · have : lowerS k = "style" := by simpa using hx
      rw [this] at h
      cases h
  have hcl : ((lowerS k) == "class") = false := by
    cases hx : (lowerS k) == "class"
    · rfl
    · have : lowerS k = "class" := by simpa using hx
      rw [this] at h
      cases h
  have hid : ((lowerS k) == "id") = false := by
    cases hx : (lowerS k) == "id"
    · rfl
    · have : lowerS k = "id" := by simpa using hx
      rw [this] at h
      cases h
  rw [if_neg (ne_true_of_false hev), if_neg (ne_true_of_false hst),
    if_neg (ne_true_of_false hcl), if_neg (ne_true_of_false hid),
    if_pos (show isDataAttribute (lowerS k) = true from h)]

/-- Kept attribute names are neither event handlers nor `style`. -/
theorem keepAttr_no_event_style (o : Options) (k : String)
    (hk : keepAttrKey o k = true) :
    isEventAttribute (lowerS k) = false ∧ ((lowerS k) == "style") = false := by
  unfold keepAttrKey at hk
  by_cases he : isEventAttribute (lowerS k) = true
  · rw [if_pos he] at hk
    cases hk
  · refine ⟨Bool.eq_false_iff.mpr he, ?_⟩
    by_cases hs : ((lowerS k) == "style") = true
    · rw [if_neg he, if_pos hs] at hk
      cases hk
    · exact Bool.eq_false_iff.mpr hs

/-- Kept attribute names are never `rel`. -/
theorem keepAttr_no_rel (o : Options) (k : String)
    (hk : keepAttrKey o k = true) : ((lowerS k) == "rel") = false := by
  cases hx : (lowerS k) == "rel"
  · rfl
  · have : lowerS k = "rel" := by simpa using hx
    rw [keepAttr_rel o k this] at hk
    cases hk

/-! ## Pipeline-level sanitization -/

/-- Every element surviving the whole pipeline carries a sanitized attribute
set (its attributes are a fixpoint of `stripAttributes`), provided `link`
elements of the input are childless as the parser guarantees. -/
theorem wwwaxe_sanitized (o : Options) (f : XForest)
    (hlk : linkChildlessF f = true) :
    allNodesF (fun _ a => stripAttrs o a == a) true (wwwaxeTree o f) = true := by
  apply allNodes_wwwaxe
  refine allNodes_mono _ _ false true ?_ (fun h => nomatch h) _
    (processForest_allNodes o (getUnwrapTags o) f hlk)
  intro t a h
  simp only [Bool.and_eq_true] at h
  exact h.2

/-- The six content-free removable tags are removable. -/
theorem six_subset_remove {sx : String}
    (h : (["script", "style", "noscript", "svg", "iframe", "template"] :
      List String).contains sx = true) :
    REMOVE_TAGS.contains sx = true := by
  simp at h
  rcases h with rfl | rfl | rfl | rfl | rfl | rfl <;> rfl

/-! ## Claim C1 — no script/style/noscript/svg/iframe/template, no comments -/

/-- C1: for every configuration and every input tree whose `link` elements
are childless (as the parser produces), the pipeline's output contains no
element tagged `script`, `style`, `noscript`, `svg`, `iframe` or `template`,
and no comment node (`cq := false` in `allNodesF` states the absence of
comments): all such nodes are removed before serialization. -/
theorem claim_C1 (o : Options) (f : XForest) (hlk : linkChildlessF f = true) :
    allNodesF (fun t _ =>
      !((["script", "style", "noscript", "svg", "iframe", "template"] :
        List String).contains (lowerS t))) false (wwwaxeTree o f) = true := by
  apply allNodes_wwwaxe
  refine allNodes_mono _ _ false false ?_ (fun h => h) _
    (processForest_allNodes o (getUnwrapTags o) f hlk)
  intro t a h
  simp only [Bool.and_eq_true] at h
  have h1 := h.1
  cases hx : (lowerS t == "link") with
  | true =>
    have hx' : lowerS t = "link" := by simpa using hx
    rw [hx']
    rfl
  | false =>
    rw [hx] at h1
    have h2 : REMOVE_TAGS.contains (lowerS t) = false := by simpa using h1
    cases hy : (["script", "style", "noscript", "svg", "iframe", "template"] :
        List String).contains (lowerS t) with
    | false => rfl
    | true =>
      rw [six_subset_remove hy] at h2
      cases h2

/-- C1, witness: the default configuration on a simple paragraph. -/
theorem claim_C1_witness :
    linkChildlessF (.cons (.element "p" [] (.cons (.text "hi") .nil)) .nil) = true ∧
    allNodesF (fun t _ =>
      !((["script", "style", "noscript", "svg", "iframe", "template"] :
        List String).contains (lowerS t))) false
      (wwwaxeTree {} (.cons (.element "p" [] (.cons (.text "hi") .nil)) .nil)) = true :=
  ⟨rfl, claim_C1 {} (.cons (.element "p" [] (.cons (.text "hi") .nil)) .nil) rfl⟩

/-! ## Claim C2 — core mode leaves no chrome -/

/-- Chrome removal establishes chrome-freeness everywhere. -/
theorem removeChrome_chromeFree :
    ∀ f, allNodesF (fun t a => !(CHROME_TAGS.contains (lowerS t)) &&
      !(CHROME_ROLES.contains (lowerS (getAttrD a "role")))) true
      (removeChromeF f) = true := by
  refine XForest.indF
    (P := fun n => allNodesN (fun t a => !(CHROME_TAGS.contains (lowerS t)) &&
      !(CHROME_ROLES.contains (lowerS (getAttrD a "role")))) true
      (removeChromeN n) = true ∨ isChromeEl n = true)
    (Q := fun f => allNodesF (fun t a => !(CHROME_TAGS.contains (lowerS t)) &&
      !(CHROME_ROLES.contains (lowerS (getAttrD a "role")))) true
      (removeChromeF f) = true) ?_ ?_ ?_ ?_ ?_
  · intro t a cs ih
    by_cases hc : isChromeEl (.element t a cs) = true
    · exact Or.inr hc
    · left
      simp only [removeChromeN, allNodesN, Bool.and_eq_true]
      refine ⟨?_, ih⟩
      have hc' : (CHROME_TAGS.contains (lowerS t) ||
          CHROME_ROLES.contains (lowerS (getAttrD a "role"))) = false := by
        simpa [isChromeEl] using Bool.eq_false_iff.mpr hc
      simp only [Bool.or_eq_false_iff] at hc'
      rw [hc'.1, hc'.2]
      exact ⟨rfl, rfl⟩
  · intro d
    exact Or.inl rfl
  · intro d
    exact Or.inl rfl
  · rfl
  · intro n f ihn ihf
    simp only [removeChromeF]
    by_cases hc : isChromeEl n = true
    · rw [if_pos hc]
      exact ihf
    · rw [if_neg hc]
      simp only [allNodesF, Bool.and_eq_true]
      refine ⟨?_, ihf⟩
      cases ihn with
      | inl h => exact h
      | inr h => exact absurd h hc

/-- The chrome stripper outputs a chrome-free forest, unconditionally. -/
theorem stripChrome_chromeFree (f : XForest) :
    allNodesF (fun t a => !(CHROME_TAGS.contains (lowerS t)) &&
      !(CHROME_ROLES.contains (lowerS (getAttrD a "role")))) true
      (stripChrome f) = true := by
  unfold stripChrome
  have h' := removeChrome_chromeFree f
  cases hm : (match findElemF "main" (removeChromeF f) with
      | some m => some m
      | none => (findElemsF isRoleMain (removeChromeF f)).head?) with
  | some m => simpa [hm] using h'
  | none =>
    simp only [hm]
    cases hc : findCoreContent (removeChromeF f) with
    | some cc =>
      simp only [allNodesF, Bool.and_eq_true]
      exact ⟨allNodes_findCoreContent _ _ _ h' cc hc, trivial⟩
    | none => exact h'

/-- C2: with `core: true`, the output contains no element whose lowercased
tag is in `CHROME_TAGS` and no element whose lowercased `role` attribute
value is in `CHROME_ROLES`, at any nesting depth. -/
theorem claim_C2 (o : Options) (f : XForest) (hcore : o.core = true) :
    allNodesF (fun t a => !(CHROME_TAGS.contains (lowerS t)) &&
      !(CHROME_ROLES.contains (lowerS (getAttrD a "role")))) true
      (wwwaxeTree o f) = true := by
  unfold wwwaxeTree
  rw [hcore]
  simp only [if_true]
  have h3 := stripChrome_chromeFree
    (removeDocumentWrappers (processForest o (getUnwrapTags o) f))
  have h4 := allNodes_collapse _ true _ h3
  have h5 := allNodes_clean _ true _ h4
  cases hm : o.markdown
  · simpa [hm] using h5
  · simpa [hm] using allNodes_mdTop _ true _ h5

/-- C2, witness: core mode on the spec's chrome scenario. -/
theorem claim_C2_witness :
    (({core := true} : Options).core = true) ∧
    allNodesF (fun t a => !(CHROME_TAGS.contains (lowerS t)) &&
      !(CHROME_ROLES.contains (lowerS (getAttrD a "role")))) true
      (wwwaxeTree {core := true}
        (.cons (.element "nav" [] (.cons (.text "menu") .nil))
          (.cons (.element "main" [] (.cons (.text "Content") .nil)) .nil))) = true :=
  ⟨rfl, claim_C2 {core := true}
    (.cons (.element "nav" [] (.cons (.text "menu") .nil))
      (.cons (.element "main" [] (.cons (.text "Content") .nil)) .nil)) rfl⟩

/-! ## Claim C5 — class/id/data-* survival tracks the keep-flags -/

/-- C5: an attribute named (case-insensitively) `class` survives the
sanitizer iff `keepClasses`; `id` iff `keepIds` (true by default); a
`data-*` name iff `keepDataAttributes`; and every element in the pipeline's
output carries a sanitizer-fixed attribute set, so the characterization
applies to every surviving element. -/
theorem claim_C5 (o : Options) (f : XForest) (k v : String)
    (a : List (String × String)) (hlk : linkChildlessF f = true) :
    ((lowerS k = "class" →
        (((k, v) ∈ stripAttrs o a) ↔ ((k, v) ∈ a ∧ o.keepClasses = true))) ∧
      (lowerS k = "id" →
        (((k, v) ∈ stripAttrs o a) ↔ ((k, v) ∈ a ∧ o.keepIds = true))) ∧
      (strStarts (lowerS k) "data-" = true →
        (((k, v) ∈ stripAttrs o a) ↔ ((k, v) ∈ a ∧ o.keepDataAttributes = true)))) ∧
    allNodesF (fun _ attrs => stripAttrs o attrs == attrs) true
      (wwwaxeTree o f) = true := by
  refine ⟨⟨?_, ?_, ?_⟩, wwwaxe_sanitized o f hlk⟩
  · intro hcl
    simp [mem_stripAttrs, keepAttr_class o k hcl]
  · intro hid
    simp [mem_stripAttrs, keepAttr_id o k hid]
  · intro hdata
    simp [mem_stripAttrs, keepAttr_data o k hdata]

/-- C5, witness: concrete attribute lists under the default configuration. -/
theorem claim_C5_witness :
    ((lowerS "class" = "class" →
        ((("class", "x") ∈ stripAttrs {} [("class", "x")]) ↔
          (("class", "x") ∈ [("class", "x")] ∧ ({} : Options).keepClasses = true))) ∧
      (lowerS "class" = "id" →
        ((("class", "x") ∈ stripAttrs {} [("class", "x")]) ↔
          (("class", "x") ∈ [("class", "x")] ∧ ({} : Options).keepIds = true))) ∧
      (strStarts (lowerS "class") "data-" = true →
        ((("class", "x") ∈ stripAttrs {} [("class", "x")]) ↔
          (("class", "x") ∈ [("class", "x")] ∧
            ({} : Options).keepDataAttributes = true)))) ∧
    allNodesF (fun _ attrs => stripAttrs {} attrs == attrs) true
      (wwwaxeTree {} (.cons (.element "p" [("id", "a")] (.cons (.text "hi") .nil)) .nil)) = true :=
  claim_C5 {} (.cons (.element "p" [("id", "a")] (.cons (.text "hi") .nil)) .nil)
    "class" "x" [("class", "x")] rfl

/-! ## Claim C6 — no event handlers, no style attributes -/

/-- C6: for every input (with parser-shaped childless `link`s) and every
configuration, no element of the output carries an attribute whose name
matches the event-handler pattern (`on` + at least one character,
case-insensitively) and none carries a `style` attribute. -/
theorem claim_C6 (o : Options) (f : XForest) (hlk : linkChildlessF f = true) :
    allNodesF (fun _ a => a.all fun p =>
      !(isEventAttribute (lowerS p.1)) && !((lowerS p.1) == "style")) true
      (wwwaxeTree o f) = true := by
  refine allNodes_mono _ _ true true ?_ (fun h => h) _ (wwwaxe_sanitized o f hlk)
  intro t a h
  have hall := keep_of_strip_eq_self (by simpa using h)
  rw [List.all_eq_true]
  intro p hp
  obtain ⟨he, hs⟩ := keepAttr_no_event_style o p.1 (hall p hp)
  rw [he, hs]
  rfl

/-- C6, witness: a paragraph with an `onclick` and a `style` attribute. -/
theorem claim_C6_witness :
    linkChildlessF (.cons (.element "p" [("onclick", "x"), ("style", "s")]
      (.cons (.text "hi") .nil)) .nil) = true ∧
    allNodesF (fun _ a => a.all fun p =>
      !(isEventAttribute (lowerS p.1)) && !((lowerS p.1) == "style")) true
      (wwwaxeTree {} (.cons (.element "p" [("onclick", "x"), ("style", "s")]
        (.cons (.text "hi") .nil)) .nil)) = true :=
  ⟨rfl, claim_C6 {} (.cons (.element "p" [("onclick", "x"), ("style", "s")]
    (.cons (.text "hi") .nil)) .nil) rfl⟩

/-! ## Claim C10 — surviving links carry no `rel` -/

/-- C10: `rel` is not in the content-attribute allow-list, so every `link`
element that survives (necessarily via the canonical/alternate exception,
which sanitizes its attributes) loses its `rel` attribute: no `link` element
in the output carries any attribute lowercasing to `rel`, making canonical
and alternate links indistinguishable. -/
theorem claim_C10 (o : Options) (f : XForest) (hlk : linkChildlessF f = true) :
    allNodesF (fun t a => !(lowerS t == "link") ||
      a.all fun p => !((lowerS p.1) == "rel")) true (wwwaxeTree o f) = true := by
  refine allNodes_mono _ _ true true ?_ (fun h => h) _ (wwwaxe_sanitized o f hlk)
  intro t a h
  have hall := keep_of_strip_eq_self (by simpa using h)
  have hrel : a.all (fun p => !((lowerS p.1) == "rel")) = true := by
    rw [List.all_eq_true]
    intro p hp
    rw [keepAttr_no_rel o p.1 (hall p hp)]
    rfl
  rw [hrel]
  simp

/-- C10, witness: a canonical link survives with `href` only. -/
theorem claim_C10_witness :
    linkChildlessF exLink = true ∧
    allNodesF (fun t a => !(lowerS t == "link") ||
      a.all fun p => !((lowerS p.1) == "rel")) true
      (wwwaxeTree {} exLink) = true :=
  ⟨rfl, claim_C10 {} exLink rfl⟩

/-! ## Claim C3 — the chrome-stripper content fallback -/

/-- C3, counterexample.  The claim resolves the skip-to-content convention
through the first skip-link only; the code tries every skip-link in document
order until one resolves.  On `exSkip` (first skip-link dangling, second
resolving, no `article`, no well-known id) the claim predicts the tree is
left unchanged while `stripChrome` replaces the children with the second
skip-link's target. -/
theorem claim_C3_counterexample :
    stripChrome exSkip =
      .cons (.element "section" [("id", "target")] (.cons (.text "Body") .nil)) .nil ∧
    stripChromeAsClaimed exSkip = exSkip ∧
    stripChrome exSkip ≠ stripChromeAsClaimed exSkip :=
  ⟨rfl, rfl, by decide⟩

/-- C3, amended: with core enabled, after chrome removal and in the absence
of a `main`/`role=main` element, the fallback tries (1) the first `article`,
(2) the target of the first skip-link whose fragment id is non-empty and
resolves to an element — skip-links tried in document order — and (3) the
well-known content ids in their fixed order; a match becomes the document's
only child, otherwise the tree is unchanged.  `stripChrome` coincides with
this amended contract on every tree. -/
theorem claim_C3_amended :
    ∀ f : XForest, stripChrome f = stripChromeAmendedSpec f :=
  fun _ => rfl

/-! ## Claim C7 — the frontmatter description field -/

/-- C7, counterexample.  A `meta[name=description]` whose content is
whitespace-only does determine the outcome: on `exMeta` the code stores the
empty trim and stops, so the emitted description field is absent, while the
claim predicts the later meta's `"Real"`. -/
theorem claim_C7_counterexample :
    descriptionField (extractFrontmatter exMeta) = none ∧
    descriptionAsClaimed exMeta = some "Real" ∧
    descriptionField (extractFrontmatter exMeta) ≠ descriptionAsClaimed exMeta :=
  ⟨rfl, rfl, by decide⟩

/-- C7, amended: the first `meta[name=description]` (name case-insensitive)
whose raw `content` attribute is non-empty decides the field — the field is
its trimmed content when that trim is non-empty and is absent otherwise, and
later metas are never consulted; the field is also absent when no meta has
non-empty raw content or there is no head. -/
theorem claim_C7_amended :
    ∀ f : XForest, descriptionField (extractFrontmatter f) = descriptionAmendedSpec f := by
  intro f
  unfold descriptionField extractFrontmatter descriptionAmendedSpec
  cases h : findElemF "head" f with
  | none => rfl
  | some head =>
    simp only []
    rw [findSome_guard]
    cases hfind : (findElemsN (isElemTag "meta") head).find? fun m =>
        lowerS (getAttrD (attrsOfN m) "name")
            == "description" &&
          !(getAttrD (attrsOfN m) "content" == "") with
    | none => rfl
    | some m => rfl

/-! ## Claim C8 — the markdown `pre`/`code` rules -/

/-- C8: in markdown mode every `pre` element is replaced by the single text
node `"\n" ++ "(three backticks)" ++ "\n" ++ text ++ "\n" ++ "(three
backticks)" ++ "\n"`, where `text` is the inner `code` child's concatenated
text when the sole (rewritten) child is a `code` element and the `pre`
element's own concatenated text otherwise (`preText`); and a `code` element
whose parent is a `pre` is left untouched by the code rule (children
rewritten, tag and attributes intact), so that the `pre` template wraps
it. -/
theorem claim_C8_pre_code (rawTag : String) (a : List (String × String))
    (cs : XForest) (ptag : Option String) (hpre : lowerS rawTag = "pre") :
    mdN ptag (.element rawTag a cs) =
      .text ("\n```\n" ++ preText rawTag a (mdF rawTag cs) ++ "\n```\n") ∧
    ∀ (ctag : String) (a2 : List (String × String)) (cs2 : XForest),
      lowerS ctag = "code" →
      mdN (some rawTag) (.element ctag a2 cs2) = .element ctag a2 (mdF ctag cs2) := by
  constructor
  · show mdSwitch ptag rawTag a (mdF rawTag cs) = _
    unfold mdSwitch
    rw [hpre]
    rfl
  · intro ctag a2 cs2 hcode
    show mdSwitch (some rawTag) ctag a2 (mdF ctag cs2) = _
    unfold mdSwitch
    rw [hcode]
    show (if (lowerS rawTag == "pre") = true then XNode.element ctag a2 (mdF ctag cs2)
          else XNode.text ("`" ++ getMdTextF (mdF ctag cs2) ++ "`")) = _
    rw [hpre]
    rfl

/-- C8, witness: the rules evaluated at a concrete `pre` with a sole `code`
child and at a concrete `code` under a `pre` parent. -/
theorem claim_C8_witness :
    mdN none (.element "pre" []
        (.cons (.element "code" [] (.cons (.text "x") .nil)) .nil)) =
      .text "\n```\nx\n```\n" ∧
    mdN (some "pre") (.element "code" [] (.cons (.text "y") .nil)) =
      .element "code" [] (.cons (.text "y") .nil) := by
  have h := claim_C8_pre_code "pre" []
    (.cons (.element "code" [] (.cons (.text "x") .nil)) .nil) none rfl
  exact ⟨h.1, h.2 "code" [] (.cons (.text "y") .nil) rfl⟩

/-! ## Claim C9 — removal of hidden elements -/

/-- C9, counterexample.  The claim says the pruner removes every hidden
element; a hidden `link[rel=canonical]` is kept (with sanitized attributes)
because the useful-link early return runs before the visibility check. -/
theorem claim_C9_counterexample :
    isHidden {} [("rel", "canonical"), ("href", "u"), ("hidden", "")] = true ∧
    processNode {} (getUnwrapTags {}) exHiddenLink =
      .cons (.element "link" [("href", "u")] .nil) .nil ∧
    processNode {} (getUnwrapTags {}) exHiddenLink ≠ .nil :=
  ⟨rfl, rfl, by decide⟩

/-- C9, amended: the structural pruner removes, with all its descendants,
every element that is hidden (`isHidden`: a `hidden` attribute is present, or
`aria-hidden="true"` while `keepAriaHidden` is false, or the raw `style` text
contains one of the four display/visibility substrings) — except a `link`
with `rel` canonical/alternate, which the remove-tag exception keeps before
the visibility check runs. -/
theorem claim_C9_amended (o : Options) (ut : List String) (rawTag : String)
    (attrs : List (String × String)) (cs : XForest)
    (hhid : isHidden o attrs = true)
    (hnl : ¬(lowerS rawTag = "link" ∧ isUsefulLink attrs = true)) :
    processNode o ut (.element rawTag attrs cs) = .nil := by
  unfold processNode
  by_cases hrem : REMOVE_TAGS.contains (lowerS rawTag) = true
  · have hlk : (lowerS rawTag == "link" && isUsefulLink attrs) = false := by
      cases hx : lowerS rawTag == "link" with
      | false => simp [hx]
      | true =>
        cases hy : isUsefulLink attrs with
        | false => simp [hy]
        | true => exact absurd ⟨by simpa using hx, hy⟩ hnl
    rw [if_pos hrem, if_neg (by simp [hlk])]
  · rw [if_neg hrem, if_pos hhid]

/-- C9, amended, witness: a hidden `div` is removed. -/
theorem claim_C9_witness :
    processNode {} (getUnwrapTags {}) (.element "div" [("hidden", "")] .nil) = .nil :=
  claim_C9_amended {} (getUnwrapTags {}) "div" [("hidden", "")] .nil rfl
    (by decide)

/-! ## Claim C4 — string-level lemmas for the whitespace passes -/

/-- Characters of a collapsed list: each is a space or an original
character outside the run class. -/
theorem mem_collapseRuns (p : Char → Bool) :
    ∀ (l : List Char) (b : Bool) (c : Char), c ∈ collapseRuns p b l →
      c = ' ' ∨ (c ∈ l ∧ p c = false)
  | [], _, c, hc => by cases hc
  | a :: t, b, c, hc => by
    by_cases hp : p a = true
    · cases b with
      | true =>
        simp only [collapseRuns, if_pos hp, if_pos rfl] at hc
        rcases mem_collapseRuns p t true c hc with h | h
        · exact Or.inl h
        · exact Or.inr ⟨List.mem_cons_of_mem a h.1, h.2⟩
      | false =>
        simp only [collapseRuns, if_pos hp] at hc
        rw [if_neg (by simp)] at hc
        rcases List.mem_cons.mp hc with rfl | hc2
        · exact Or.inl rfl
        · rcases mem_collapseRuns p t true c hc2 with h | h
          · exact Or.inl h
          · exact Or.inr ⟨List.mem_cons_of_mem a h.1, h.2⟩
    · simp only [collapseRuns, if_neg hp] at hc
      rcases List.mem_cons.mp hc with rfl | hc2
      · exact Or.inr ⟨List.mem_cons_self _ _, Bool.eq_false_iff.mpr hp⟩
      · rcases mem_collapseRuns p t false c hc2 with h | h
        · exact Or.inl h
        · exact Or.inr ⟨List.mem_cons_of_mem a h.1, h.2⟩

/-- Collapsing runs neither creates nor destroys characters outside a target
class `tq`, provided spaces are in `tq` and the run class is contained in
`tq`. -/
theorem any_not_collapseRuns (p tq : Char → Bool) (hsp : tq ' ' = true)
    (himp : ∀ c, p c = true → tq c = true) :
    ∀ (l : List Char) (b : Bool),
      ((collapseRuns p b l).any fun c => !(tq c)) = (l.any fun c => !(tq c))
  | [], _ => rfl
  | a :: t, b => by
    by_cases hp : p a = true
    · have hta : tq a = true := himp a hp
      cases b with
      | true =>
        simp [collapseRuns, hp, hta, any_not_collapseRuns p tq hsp himp t true]
      | false =>
        simp [collapseRuns, hp, hta, hsp, any_not_collapseRuns p tq hsp himp t true]
    · simp [collapseRuns, hp, any_not_collapseRuns p tq hsp himp t false]

/-- Trimming yields the empty list exactly when everything is whitespace. -/
theorem trimChars_eq_nil_iff (l : List Char) :
    trimChars l = [] ↔ ∀ c ∈ l, jsWs c = true := by
  unfold trimChars
  rw [List.reverse_eq_nil_iff, List.dropWhile_eq_nil_iff]
  constructor
  · intro h c hc
    have hsplit : List.takeWhile jsWs l ++ List.dropWhile jsWs l = l :=
      List.takeWhile_append_dropWhile jsWs l
    rw [← hsplit] at hc
    rcases List.mem_append.mp hc with h1 | h2
    · exact List.mem_takeWhile_imp h1
    · exact h c (List.mem_reverse.mpr h2)
  · intro h x hx
    exact h x ((List.dropWhile_sublist jsWs).subset (List.mem_reverse.mp hx))

/-- The trimmed-nonempty test is the presence of a non-whitespace
character. -/
theorem strTrim_pos (d : String) :
    decide (0 < (strTrim d).length) = d.data.any fun c => !(jsWs c) := by
  have hlen : (strTrim d).length = (trimChars d.data).length := rfl
  cases h : d.data.any fun c => !(jsWs c) with
  | true =>
    obtain ⟨c, hc, hcw⟩ := List.any_eq_true.mp h
    have hne : ¬(trimChars d.data = []) := by
      rw [trimChars_eq_nil_iff]
      intro hall
      rw [hall c hc] at hcw
      cases hcw
    have hpos : 0 < (trimChars d.data).length := List.length_pos.mpr hne
    rw [hlen] at *
    simpa using hpos
  | false =>
    have hall : ∀ c ∈ d.data, jsWs c = true := by
      intro c hc
      by_cases hw : jsWs c = true
      · exact hw
      · exfalso
        have hx : d.data.any (fun c => !(jsWs c)) = true :=
          List.any_eq_true.mpr ⟨c, hc, by rw [Bool.eq_false_iff.mpr hw]; rfl⟩
        rw [h] at hx
        cases hx
    have hz : trimChars d.data = [] := (trimChars_eq_nil_iff _).mpr hall
    simp [hlen, hz]

/-- The whitespace-normalizer preserves the trimmed-nonempty test. -/
theorem meaningful_text_collapse (d : String) :
    decide (0 < (strTrim (collapseWs d)).length) =
      decide (0 < (strTrim d).length) := by
  rw [strTrim_pos, strTrim_pos]
  show ((collapseRuns (· == ' ') false (collapseRuns isTNR false d.data)).any
    fun c => !(jsWs c)) = _
  rw [any_not_collapseRuns (· == ' ') jsWs rfl
      (fun c hc => by rw [eq_of_beq hc]; rfl),
    any_not_collapseRuns isTNR jsWs rfl
      (fun c hc => by
        simp only [isTNR, Bool.or_eq_true] at hc
        rcases hc with (h | h) | h <;> (rw [eq_of_beq h]; rfl))]

/-- Collapsing is the identity on lists free of the run class. -/
theorem collapseRuns_all_not (p : Char → Bool) :
    ∀ (l : List Char) (b : Bool), (∀ c ∈ l, p c = false) → collapseRuns p b l = l
  | [], _, _ => rfl
  | a :: t, b, h => by
    have hpa : p a = false := h a (List.mem_cons_self a t)
    simp [collapseRuns, hpa,
      collapseRuns_all_not p t false (fun c hc => h c (List.mem_cons_of_mem a hc))]

/-- The space-squeezing pass is idempotent (in both run states). -/
theorem sp_collapse_idem :
    ∀ l : List Char,
      collapseRuns (· == ' ') false (collapseRuns (· == ' ') false l) =
        collapseRuns (· == ' ') false l ∧
      collapseRuns (· == ' ') true (collapseRuns (· == ' ') true l) =
        collapseRuns (· == ' ') true l
  | [] => ⟨rfl, rfl⟩
  | a :: t => by
    by_cases ha : (a == ' ') = true
    · have ha' : a = ' ' := eq_of_beq ha
      subst ha'
      constructor
      · show collapseRuns (· == ' ') false (' ' :: collapseRuns (· == ' ') true t) =
          ' ' :: collapseRuns (· == ' ') true t
        show ' ' :: collapseRuns (· == ' ') true (collapseRuns (· == ' ') true t) =
          ' ' :: collapseRuns (· == ' ') true t
        rw [(sp_collapse_idem t).2]
      · show collapseRuns (· == ' ') true (collapseRuns (· == ' ') true t) =
          collapseRuns (· == ' ') true t
        exact (sp_collapse_idem t).2
    · have ha' : (a == ' ') = false := Bool.eq_false_iff.mpr ha
      have heqf : ∀ r, collapseRuns (· == ' ') false (a :: r) =
          a :: collapseRuns (· == ' ') false r := by
        intro r
        simp [collapseRuns, ha']
      have heqt : ∀ r, collapseRuns (· == ' ') true (a :: r) =
          a :: collapseRuns (· == ' ') false r := by
        intro r
        simp [collapseRuns, ha']
      constructor
      · rw [heqf t, heqf (collapseRuns (· == ' ') false t), (sp_collapse_idem t).1]
      · rw [heqt t, heqt (collapseRuns (· == ' ') false t), (sp_collapse_idem t).1]

/-- `collapseWhitespace`'s text transformation is idempotent. -/
theorem collapseWs_idem (s : String) : collapseWs (collapseWs s) = collapseWs s := by
  show (⟨collapseRuns (· == ' ') false (collapseRuns isTNR false
    (collapseRuns (· == ' ') false (collapseRuns isTNR false s.data)))⟩ : String) = _
  have h1 : collapseRuns isTNR false
      (collapseRuns (· == ' ') false (collapseRuns isTNR false s.data)) =
      collapseRuns (· == ' ') false (collapseRuns isTNR false s.data) := by
    apply collapseRuns_all_not
    intro c hc
    rcases mem_collapseRuns (· == ' ') _ _ c hc with rfl | ⟨hmem, _⟩
    · rfl
    · rcases mem_collapseRuns isTNR _ _ c hmem with rfl | ⟨_, hfree⟩
      · rfl
      · exact hfree
  rw [h1, (sp_collapse_idem _).1]
  rfl

/-- The text-node cleaner's transformation is idempotent. -/
theorem cleanData_idem (d : String) : cleanData (cleanData d) = cleanData d := by
  unfold cleanData
  by_cases h : ((strTrim d).length == 0 && decide (1 < d.length)) = true
  · rw [if_pos h, if_neg (by decide)]
  · rw [if_neg h, if_neg h]

/-- Collapsing is the identity right after cleaning a collapsed text. -/
theorem collapseWs_cleanData_collapseWs (d : String) :
    collapseWs (cleanData (collapseWs d)) = cleanData (collapseWs d) := by
  unfold cleanData
  by_cases h : ((strTrim (collapseWs d)).length == 0 &&
      decide (1 < (collapseWs d).length)) = true
  · rw [if_pos h]
    rfl
  · rw [if_neg h]
    exact collapseWs_idem d

/-- The cleaner preserves the trimmed-nonempty test. -/
theorem meaningful_text_clean (d : String) :
    decide (0 < (strTrim (cleanData d)).length) =
      decide (0 < (strTrim d).length) := by
  unfold cleanData
  by_cases h : ((strTrim d).length == 0 && decide (1 < d.length)) = true
  · rw [if_pos h]
    simp only [Bool.and_eq_true, beq_iff_eq] at h
    rw [h.1]
    decide
  · rw [if_neg h]

/-- The whitespace normalizer keeps the number of top-level nodes. -/
theorem collapseF_length : ∀ f : XForest, (collapseF f).length = f.length
  | .nil => rfl
  | .cons n f => by
    simp only [collapseF, XForest.length]
    rw [collapseF_length f]

/-- The text-node cleaner keeps the number of top-level nodes. -/
theorem cleanF_length : ∀ f : XForest, (cleanF f).length = f.length
  | .nil => rfl
  | .cons (.text d) f => by
    simp only [cleanF, XForest.length]
    rw [cleanF_length f]
  | .cons (.element t a cs) f => by
    simp only [cleanF, XForest.length]
    rw [cleanF_length f]
  | .cons (.comment d) f => by
    simp only [cleanF, XForest.length]
    rw [cleanF_length f]

/-- `tagFreeF` over an append. -/
theorem tagFreeF_append (t : String) :
    ∀ f g, tagFreeF t (XForest.append f g) = (tagFreeF t f && tagFreeF t g)
  | .nil, g => by simp [XForest.append, tagFreeF]
  | .cons n f, g => by
    simp [XForest.append, tagFreeF, tagFreeF_append t f g, Bool.and_assoc]

/-- The whitespace normalizer changes no tag. -/
theorem tagFree_collapse (t : String) :
    (∀ n, tagFreeN t (collapseN n) = tagFreeN t n) ∧
    (∀ f, tagFreeF t (collapseF f) = tagFreeF t f) := by
  refine XNode.indBoth ?_ ?_ ?_ ?_ ?_
  · intro tg a cs ih
    simp only [collapseN, tagFreeN]
    rw [ih]
  · intro d
    rfl
  · intro d
    rfl
  · rfl
  · intro n f ihn ihf
    simp only [collapseF, tagFreeF]
    rw [ihn, ihf]

/-- The text-node cleaner changes no tag. -/
theorem tagFree_clean (t : String) :
    (∀ n, tagFreeN t (cleanN n) = tagFreeN t n) ∧
    (∀ f, tagFreeF t (cleanF f) = tagFreeF t f) := by
  refine XNode.indBoth ?_ ?_ ?_ ?_ ?_
  · intro tg a cs ih
    simp only [cleanN, tagFreeN]
    rw [ih]
  · intro d
    rfl
  · intro d
    rfl
  · rfl
  · intro n f ihn ihf
    cases n with
    | text d =>
      simp only [cleanF, tagFreeF, tagFreeN]
      rw [ihf]
    | element tg a cs =>
      simp only [cleanF, tagFreeF]
      rw [ihn, ihf]
    | comment d =>
      simp only [cleanF, tagFreeF]
      rw [ihn, ihf]

/-- The whitespace normalizer preserves meaningfulness of every node. -/
theorem meaningful_collapse :
    (∀ n, hasMeaningfulContent (collapseN n) = hasMeaningfulContent n) ∧
    (∀ f, anyMeaningful (collapseF f) = anyMeaningful f) := by
  refine XNode.indBoth ?_ ?_ ?_ ?_ ?_
  · intro t a cs ih
    simp only [collapseN, hasMeaningfulContent]
    rw [ih]
  · intro d
    simp only [collapseN, hasMeaningfulContent]
    exact meaningful_text_collapse d
  · intro d
    rfl
  · rfl
  · intro n f ihn ihf
    simp only [collapseF, anyMeaningful]
    rw [ihn, ihf]

/-- The text-node cleaner preserves meaningfulness of every node. -/
theorem meaningful_clean :
    (∀ n, hasMeaningfulContent (cleanN n) = hasMeaningfulContent n) ∧
    (∀ f, anyMeaningful (cleanF f) = anyMeaningful f) := by
  refine XNode.indBoth ?_ ?_ ?_ ?_ ?_
  · intro t a cs ih
    simp only [cleanN, hasMeaningfulContent]
    rw [ih]
  · intro d
    rfl
  · intro d
    rfl
  · rfl
  · intro n f ihn ihf
    cases n with
    | text d =>
      simp only [cleanF, anyMeaningful, hasMeaningfulContent]
      rw [meaningful_text_clean d, ihf]
    | element tg a cs =>
      simp only [cleanF, anyMeaningful]
      rw [ihn, ihf]
    | comment d =>
      simp only [cleanF, anyMeaningful]
      rw [ihn, ihf]

/-- `meaningful_collapse` stated on an element whose children were
collapsed. -/
theorem meaningful_el_collapse (t : String) (a : List (String × String))
    (cs : XForest) :
    hasMeaningfulContent (.element t a (collapseF cs)) =
      hasMeaningfulContent (.element t a cs) := by
  simp only [hasMeaningfulContent]
  rw [meaningful_collapse.2]

/-- `meaningful_clean` stated on an element whose children were cleaned. -/
theorem meaningful_el_clean (t : String) (a : List (String × String))
    (cs : XForest) :
    hasMeaningfulContent (.element t a (cleanF cs)) =
      hasMeaningfulContent (.element t a cs) := by
  simp only [hasMeaningfulContent]
  rw [meaningful_clean.2]

/-- The whitespace normalizer preserves the pruner-fixpoint invariant. -/
theorem pruned_collapse (o : Options) (ut : List String) :
    (∀ n, prunedN o ut (collapseN n) = prunedN o ut n) ∧
    (∀ f, prunedF o ut (collapseF f) = prunedF o ut f) := by
  refine XNode.indBoth ?_ ?_ ?_ ?_ ?_
  · intro rawTag a cs ih
    simp only [collapseN, prunedN]
    by_cases hl : (lowerS rawTag == "link") = true
    · rw [if_pos hl, if_pos hl, collapseF_length]
    · rw [if_neg hl, if_neg hl, meaningful_el_collapse, ih]
  · intro d
    rfl
  · intro d
    rfl
  · rfl
  · intro n f ihn ihf
    simp only [collapseF, prunedF]
    rw [ihn, ihf]

/-- The text-node cleaner preserves the pruner-fixpoint invariant. -/
theorem pruned_clean (o : Options) (ut : List String) :
    (∀ n, prunedN o ut (cleanN n) = prunedN o ut n) ∧
    (∀ f, prunedF o ut (cleanF f) = prunedF o ut f) := by
  refine XNode.indBoth ?_ ?_ ?_ ?_ ?_
  · intro rawTag a cs ih
    simp only [cleanN, prunedN]
    by_cases hl : (lowerS rawTag == "link") = true
    · rw [if_pos hl, if_pos hl, cleanF_length]
    · rw [if_neg hl, if_neg hl, meaningful_el_clean, ih]
  · intro d
    rfl
  · intro d
    rfl
  · rfl
  · intro n f ihn ihf
    cases n with
    | text d =>
      simp only [cleanF, prunedF, prunedN]
      rw [ihf]
    | element tg a cs =>
      simp only [cleanF, prunedF]
      rw [ihn, ihf]
    | comment d =>
      simp only [cleanF, prunedF]
      rw [ihn, ihf]

/-- The text-node cleaner is idempotent. -/
theorem cleanF_idem :
    (∀ n, cleanN (cleanN n) = cleanN n) ∧
    (∀ f, cleanF (cleanF f) = cleanF f) := by
  refine XNode.indBoth ?_ ?_ ?_ ?_ ?_
  · intro tg a cs ih
    simp only [cleanN]
    rw [ih]
  · intro d
    rfl
  · intro d
    rfl
  · rfl
  · intro n f ihn ihf
    cases n with
    | text d =>
      simp only [cleanF]
      rw [cleanData_idem, ihf]
    | element tg a cs =>
      have hel := ihn
      simp only [cleanN] at hel
      injection hel with e1 e2 e3
      simp only [cleanF, cleanN]
      rw [e3, ihf]
    | comment d =>
      simp only [cleanF, cleanN]
      rw [ihf]

/-- Collapsing is the identity right after cleaning a collapsed tree. -/
theorem collapse_clean_collapse :
    (∀ n, collapseN (cleanN (collapseN n)) = cleanN (collapseN n)) ∧
    (∀ f, collapseF (cleanF (collapseF f)) = cleanF (collapseF f)) := by
  refine XNode.indBoth ?_ ?_ ?_ ?_ ?_
  · intro tg a cs ih
    simp only [collapseN, cleanN]
    rw [ih]
  · intro d
    simp only [collapseN, cleanN]
    rw [collapseWs_idem]
  · intro d
    rfl
  · rfl
  · intro n f ihn ihf
    cases n with
    | text d =>
      simp only [collapseF, collapseN, cleanF]
      rw [collapseWs_cleanData_collapseWs, ihf]
    | element tg a cs =>
      have hel := ihn
      simp only [collapseN, cleanN] at hel
      injection hel with e1 e2 e3
      simp only [collapseF, collapseN, cleanF, cleanN]
      rw [e3, ihf]
    | comment d =>
      simp only [collapseF, collapseN, cleanF, cleanN]
      rw [ihf]

/-- The structural pruner introduces no new tag: a forest free of `t`
elements is pruned into a forest free of `t` elements. -/
theorem tagFree_processForest (o : Options) (ut : List String) (t : String) :
    ∀ f, tagFreeF t f = true → tagFreeF t (processForest o ut f) = true := by
  refine XForest.indF
    (P := fun n => tagFreeN t n = true → tagFreeF t (processNode o ut n) = true)
    (Q := fun f => tagFreeF t f = true → tagFreeF t (processForest o ut f) = true)
    ?_ ?_ ?_ ?_ ?_
  · intro rawTag attrs cs ih h
    simp only [tagFreeN, Bool.and_eq_true, Bool.not_eq_true'] at h
    obtain ⟨hnt, hcs⟩ := h
    simp only [processNode]
    by_cases h1 : REMOVE_TAGS.contains (lowerS rawTag) = true
    · rw [if_pos h1]
      by_cases h2 : (lowerS rawTag == "link" && isUsefulLink attrs) = true
      · rw [if_pos h2]
        simp only [tagFreeF, tagFreeN, hnt, Bool.not_false, Bool.true_and,
          Bool.and_true]
        exact hcs
      · rw [if_neg h2]
        rfl
    · rw [if_neg h1]
      by_cases h2 : isHidden o attrs = true
      · rw [if_pos h2]
        rfl
      · rw [if_neg h2]
        by_cases h3 : (lowerS rawTag == "meta" && !isUsefulMeta attrs) = true
        · rw [if_pos h3]
          rfl
        · rw [if_neg h3]
          by_cases h4 : (!KEEP_TAGS.contains (lowerS rawTag) &&
              (ut.contains (lowerS rawTag) &&
                !hasContentAttributes o (stripAttrs o attrs))) = true
          · rw [if_pos h4]
            exact ih hcs
          · rw [if_neg h4]
            by_cases h5 : (!KEEP_TAGS.contains (lowerS rawTag) &&
                !hasMeaningfulContent
                  (.element rawTag (stripAttrs o attrs)
                    (processForest o ut cs))) = true
            · rw [if_pos h5]
              rfl
            · rw [if_neg h5]
              by_cases h6 : (!VOID_ELEMENTS.contains (lowerS rawTag) &&
                  !HEAD_ELEMENTS.contains (lowerS rawTag) &&
                  !hasMeaningfulContent
                    (.element rawTag (stripAttrs o attrs)
                      (processForest o ut cs))) = true
              · rw [if_pos h6]
                rfl
              · rw [if_neg h6]
                simp only [tagFreeF, tagFreeN, hnt, Bool.not_false, Bool.true_and,
                  Bool.and_true]
                exact ih hcs
  · intro d _
    rfl
  · intro d _
    rfl
  · intro _
    rfl
  · intro n f ihn ihf h
    simp only [tagFreeF, Bool.and_eq_true] at h
    simp only [processForest]
    rw [tagFreeF_append, ihn h.1, ihf h.2]
    rfl

/-- The first-match transformer finds nothing in a `t`-free forest. -/
theorem onFirstF_none (t : String) (g : XNode → XNode) :
    ∀ f, tagFreeF t f = true → onFirstF t g f = none := by
  refine XForest.indF
    (P := fun n => tagFreeN t n = true → onFirstN t g n = none)
    (Q := fun f => tagFreeF t f = true → onFirstF t g f = none)
    ?_ ?_ ?_ ?_ ?_
  · intro tg a cs ih h
    simp only [tagFreeN, Bool.and_eq_true, Bool.not_eq_true'] at h
    simp only [onFirstN]
    rw [ih h.2]
    rfl
  · intro d _
    rfl
  · intro d _
    rfl
  · intro _
    rfl
  · intro n f ihn ihf h
    simp only [tagFreeF, Bool.and_eq_true] at h
    simp only [onFirstF]
    have hie : isElemTag t n = false := by
      cases n with
      | element tg a cs =>
        have h1 := h.1
        simp only [tagFreeN, Bool.and_eq_true, Bool.not_eq_true'] at h1
        simp only [isElemTag]
        exact h1.1
      | text d => rfl
      | comment d => rfl
    rw [if_neg (ne_true_of_false hie), ihn h.1, ihf h.2]
    rfl

/-- On a tree without an `html` element, `removeDocumentWrappers` is the
identity. -/
theorem removeDocumentWrappers_id (f : XForest)
    (h : tagFreeF "html" f = true) :
    removeDocumentWrappers f = f := by
  unfold removeDocumentWrappers
  rw [onFirstF_none "html" stripHtmlInner f h]

/-- With markdown and core off, and no `html` element in the pruner output,
the pipeline is prune, collapse, clean. -/
theorem wwwaxeTree_plain (o : Options) (f : XForest)
    (hmd : o.markdown = false) (hco : o.core = false)
    (hhtml : tagFreeF "html" (processForest o (getUnwrapTags o) f) = true) :
    wwwaxeTree o f =
      cleanF (collapseF (processForest o (getUnwrapTags o) f)) := by
  simp only [wwwaxeTree, hmd, hco, Bool.false_eq_true, if_false]
  rw [removeDocumentWrappers_id _ hhtml]

/-- With markdown and core off, the pipeline is prune, wrapper removal,
collapse, clean. -/
theorem wwwaxeTree_noCore (o : Options) (f : XForest)
    (hmd : o.markdown = false) (hco : o.core = false) :
    wwwaxeTree o f =
      cleanF (collapseF (removeDocumentWrappers
        (processForest o (getUnwrapTags o) f))) := by
  simp only [wwwaxeTree, hmd, hco, Bool.false_eq_true, if_false]

/-- C4, counterexample: with markdown off in both runs, the pipeline is not
idempotent, and each failure mode is concrete.  (1) On a document holding one
canonical `link`, the first run keeps the link but strips its `rel`, and the
second run, no longer seeing a useful link, removes the element.  (2) On two
side-by-side `html` documents, wrapper removal unwraps only the first, so the
first output still contains an `html` element and the second run unwraps it.
(3) On an `html` document wrapped in a `div` whose only meaningful content is
in the `head`, wrapper removal guts the `div` — the first output is free of
`html` and `link` yet violates the pruner invariant, and the second run
deletes the empty `div`.  (4) With core on, content isolation moves to a
nested skip-link target on the second run. -/
theorem claim_C4_counterexample :
    (wwwaxeTree { markdown := false } exLink =
        .cons (.element "link" [("href", "https://e/")] .nil) .nil ∧
      wwwaxeTree { markdown := false }
          (wwwaxeTree { markdown := false } exLink) = .nil ∧
      wwwaxeTree { markdown := false }
          (wwwaxeTree { markdown := false } exLink) ≠
        wwwaxeTree { markdown := false } exLink) ∧
    (tagFreeF "html" (wwwaxeTree { markdown := false } exTwoHtml) = false ∧
      wwwaxeTree { markdown := false }
          (wwwaxeTree { markdown := false } exTwoHtml) ≠
        wwwaxeTree { markdown := false } exTwoHtml) ∧
    (tagFreeF "html" (wwwaxeTree { markdown := false } exWrapped) = true ∧
      tagFreeF "link" (wwwaxeTree { markdown := false } exWrapped) = true ∧
      prunedF { markdown := false } (getUnwrapTags { markdown := false })
          (wwwaxeTree { markdown := false } exWrapped) = false ∧
      wwwaxeTree { markdown := false }
          (wwwaxeTree { markdown := false } exWrapped) ≠
        wwwaxeTree { markdown := false } exWrapped) ∧
    (wwwaxeTree { markdown := false, core := true }
        (wwwaxeTree { markdown := false, core := true } exCore) ≠
      wwwaxeTree { markdown := false, core := true } exCore) :=
  ⟨⟨rfl, rfl, by decide⟩, ⟨rfl, by decide⟩, ⟨rfl, rfl, rfl, by decide⟩,
    by decide⟩

/-- C4, amended: with markdown off in both runs and core off, a second
pipeline run returns the first output unchanged whenever the first output
contains no `link` element, contains no `html` element, and satisfies the
pruner-fixpoint invariant `prunedF` (the state the pruner leaves well-formed
documents in).  Each proviso is forced by one conjunct of the counterexample;
ordinary single-`html` documents satisfy all three, as the witness shows. -/
theorem claim_C4_amended (o : Options) (f : XForest)
    (hmd : o.markdown = false) (hco : o.core = false)
    (hlink : tagFreeF "link" (wwwaxeTree o f) = true)
    (hhtml : tagFreeF "html" (wwwaxeTree o f) = true)
    (hpr : prunedF o (getUnwrapTags o) (wwwaxeTree o f) = true) :
    wwwaxeTree o (wwwaxeTree o f) = wwwaxeTree o f := by
  have hfix : processForest o (getUnwrapTags o) (wwwaxeTree o f) =
      wwwaxeTree o f :=
    pruned_fix o (getUnwrapTags o) (wwwaxeTree o f) hpr hlink
  rw [wwwaxeTree_noCore o (wwwaxeTree o f) hmd hco, hfix,
    removeDocumentWrappers_id _ hhtml]
  rw [wwwaxeTree_noCore o f hmd hco]
  rw [collapse_clean_collapse.2, cleanF_idem.2]

/-- C4, witness: the amended idempotence at an ordinary single-`html`
document. -/
theorem claim_C4_witness :
    wwwaxeTree { markdown := false }
        (wwwaxeTree { markdown := false } exDoc) =
      wwwaxeTree { markdown := false } exDoc :=
  claim_C4_amended { markdown := false } exDoc
    rfl rfl (by decide) (by decide) (by decide)

end Wwwaxe
